import Mathlib

/-!
Shackleton Framework: chromosome rendering and the evolutionary driver.

Part 1 embeds `src/support/visualization.c`.  A chromosome is a chain of
`node_str` cells in memory; a pointer is an address, `0` standing for `NULL`.
Everything the printers write to standard output is accumulated in a string.
-/

namespace Shackleton

/-- Address of a `node_str`; `0` is `NULL`. -/
abbrev Ptr := Nat

/-- The memory the printers read, together with the `osaka` routines they call
(`osaka.h` is not part of the sources at hand, so these are parameters):
`next p` is the content of the link `NEXT(p)` of the node at a non-null `p`,
`osaka_printnode_concise p` is the text that routine prints for the node at
`p`, `fmt_p p` is what `printf("%p", p)` prints, and `osaka_nthnode` is the
node lookup used by the `from_nth` printers. -/
structure Memory where
  next : Ptr → Ptr
  osaka_printnode_concise : Ptr → String
  fmt_p : Ptr → String
  osaka_nthnode : Ptr → Nat → Ptr

/-- How a call of a printer ends, with the text printed so far:
`returned`: the function returned; `nullRead`: it evaluated `NEXT(indiv)` with
`indiv == NULL`; `unfinished`: the loop wanted one more iteration than the
iteration budget allowed. -/
inductive Run where
  | returned (out : String)
  | nullRead (out : String)
  | unfinished (out : String)
deriving DecidableEq, Repr

/-- Width of `uint32_t`. -/
def UINT32_SIZE : Nat := 2 ^ 32

/-- The `while (NEXT(indiv) != NULL)` loop of
`visualization_print_individual_concise_addresses`; the first argument bounds
the number of loop-body executions. -/
def concise_addresses_loop (m : Memory) : Nat → Ptr → String → Run
  | 0, indiv, out =>
    if indiv = 0 then .nullRead out
    else if m.next indiv ≠ 0 then .unfinished out
    else .returned out
  | fuel + 1, indiv, out =>
    if indiv = 0 then .nullRead out
    else if m.next indiv ≠ 0 then
      let indiv := m.next indiv
      let out := out ++ (" <---> \x7b " ++ m.fmt_p indiv ++ " \x7d")
      concise_addresses_loop m fuel indiv out
    else .returned out

/-- Embedding of `visualization_print_individual_concise_addresses(indiv)`. -/
def visualization_print_individual_concise_addresses (m : Memory) (fuel : Nat)
    (indiv : Ptr) : Run :=
  let out := "" ++ ("\x7b " ++ m.fmt_p indiv ++ " \x7d")
  concise_addresses_loop m fuel indiv out

/-- The `while (NEXT(indiv) != NULL)` loop of
`visualization_print_individual_concise_details`. -/
def concise_details_loop (m : Memory) : Nat → Ptr → String → Run
  | 0, indiv, out =>
    if indiv = 0 then .nullRead out
    else if m.next indiv ≠ 0 then .unfinished out
    else .returned out
  | fuel + 1, indiv, out =>
    if indiv = 0 then .nullRead out
    else if m.next indiv ≠ 0 then
      let indiv := m.next indiv
      let out := out ++ " <---> \x7b "
      let out := out ++ m.osaka_printnode_concise indiv
      let out := out ++ " \x7d"
      concise_details_loop m fuel indiv out
    else .returned out

/-- Embedding of `visualization_print_individual_concise_details(indiv)`. -/
def visualization_print_individual_concise_details (m : Memory) (fuel : Nat)
    (indiv : Ptr) : Run :=
  let out := "" ++ "\x7b "
  let out := out ++ m.osaka_printnode_concise indiv
  let out := out ++ " \x7d"
  concise_details_loop m fuel indiv out

/-- The `while (NEXT(indiv) != NULL && curr < nth)` loop of
`visualization_print_individual_concise_details_to_nth`; `curr` is a
`uint32_t`, so `curr++` wraps. -/
def concise_details_to_nth_loop (m : Memory) (nth : Nat) : Nat → Ptr → Nat → String → Run
  | 0, indiv, curr, out =>
    if indiv = 0 then .nullRead out
    else if m.next indiv ≠ 0 ∧ curr < nth then .unfinished out
    else .returned out
  | fuel + 1, indiv, curr, out =>
    if indiv = 0 then .nullRead out
    else if m.next indiv ≠ 0 ∧ curr < nth then
      let out := out ++ " <---> \x7b "
      let indiv := m.next indiv
      let out := out ++ m.osaka_printnode_concise indiv
      let out := out ++ " \x7d"
      let curr := (curr + 1) % UINT32_SIZE
      concise_details_to_nth_loop m nth fuel indiv curr out
    else .returned out

/-- Embedding of `visualization_print_individual_concise_details_to_nth(indiv, nth)`. -/
def visualization_print_individual_concise_details_to_nth (m : Memory) (fuel : Nat)
    (indiv : Ptr) (nth : Nat) : Run :=
  let out := "" ++ "\x7b "
  let out := out ++ m.osaka_printnode_concise indiv
  let out := out ++ " \x7d"
  let curr := 2
  concise_details_to_nth_loop m nth fuel indiv curr out

/-- The `while (NEXT(indiv) != NULL)` loop of
`visualization_print_individual_concise_details_from_nth`. -/
def concise_details_from_nth_loop (m : Memory) : Nat → Ptr → String → Run
  | 0, indiv, out =>
    if indiv = 0 then .nullRead out
    else if m.next indiv ≠ 0 then .unfinished out
    else .returned out
  | fuel + 1, indiv, out =>
    if indiv = 0 then .nullRead out
    else if m.next indiv ≠ 0 then
      let out := out ++ " <---> \x7b "
      let indiv := m.next indiv
      let out := out ++ m.osaka_printnode_concise indiv
      let out := out ++ " \x7d"
      concise_details_from_nth_loop m fuel indiv out
    else .returned out

/-- Embedding of `visualization_print_individual_concise_details_from_nth(indiv, nth)`. -/
def visualization_print_individual_concise_details_from_nth (m : Memory) (fuel : Nat)
    (indiv : Ptr) (nth : Nat) : Run :=
  let indiv := m.osaka_nthnode indiv nth
  let out := "" ++ "\x7b "
  let out := out ++ m.osaka_printnode_concise indiv
  let out := out ++ " \x7d"
  concise_details_from_nth_loop m fuel indiv out

/-- The `while (NEXT(indiv) != NULL && curr < nth)` loop of
`visualization_print_individual_concise_details_from_nth_to_mth`; the guard
of the source compares `curr` with `nth`. -/
def concise_details_from_nth_to_mth_loop (m : Memory) (nth : Nat) :
    Nat → Ptr → Nat → String → Run
  | 0, indiv, curr, out =>
    if indiv = 0 then .nullRead out
    else if m.next indiv ≠ 0 ∧ curr < nth then .unfinished out
    else .returned out
  | fuel + 1, indiv, curr, out =>
    if indiv = 0 then .nullRead out
    else if m.next indiv ≠ 0 ∧ curr < nth then
      let out := out ++ " <---> \x7b "
      let indiv := m.next indiv
      let out := out ++ m.osaka_printnode_concise indiv
      let out := out ++ " \x7d"
      let curr := (curr + 1) % UINT32_SIZE
      concise_details_from_nth_to_mth_loop m nth fuel indiv curr out
    else .returned out

/-- Embedding of
`visualization_print_individual_concise_details_from_nth_to_mth(indiv, nth, mth)`. -/
def visualization_print_individual_concise_details_from_nth_to_mth (m : Memory)
    (fuel : Nat) (indiv : Ptr) (nth : Nat) (_mth : Nat) : Run :=
  let indiv := m.osaka_nthnode indiv nth
  let out := "" ++ "\x7b "
  let out := out ++ m.osaka_printnode_concise indiv
  let out := out ++ " \x7d"
  let curr := 1
  concise_details_from_nth_to_mth_loop m nth fuel indiv curr out

/-! ### The chromosome invariant and the renderings the specification names -/

/-- `Chain m p rest`: the chromosome starting at `p` consists of the nodes
`p :: rest` in link order: every node is non-null, each `NEXT` link leads to
the following node, and the `NEXT` link of the last one is `NULL`.  Such a
chain has at least one node and cannot contain a cycle. -/
def Chain (m : Memory) : Ptr → List Ptr → Prop
  | p, [] => p ≠ 0 ∧ m.next p = 0
  | p, q :: rest => p ≠ 0 ∧ m.next p = q ∧ Chain m q rest

/-- One rendered node, `{ <text> }`. -/
def block (f : Ptr → String) (n : Ptr) : String := "\x7b " ++ f n ++ " \x7d"

/-- The blocks of `nodes`, in order, joined by `" <---> "`. -/
def joined (f : Ptr → String) (nodes : List Ptr) : String :=
  " <---> ".intercalate (nodes.map (block f))

/-- The rendering spelt out node by node: the block of the first node
followed, for every later node in order, by `" <---> { "`, its text and
`" }"`. -/
def rendering (f : Ptr → String) : List Ptr → String
  | [] => ""
  | n1 :: rest => rest.foldl (fun acc n => acc ++ " <---> \x7b " ++ f n ++ " \x7d") ("\x7b " ++ f n1 ++ " \x7d")

/-- The 1-based node lookup used in the worked examples: `n - 1` links are
followed from `p`, stopping early at the tail. -/
def walk (next : Ptr → Ptr) : Nat → Ptr → Ptr
  | 0, p => p
  | k + 1, p => if next p = 0 then p else walk next k (next p)

/-- A six-node chromosome at addresses `1 .. 6`, each node printed as its
address in decimal. -/
def sixNodes : Memory where
  next := fun p => if p < 6 then p + 1 else 0
  osaka_printnode_concise := fun p => toString p
  fmt_p := fun p => toString p
  osaka_nthnode := fun p n => walk (fun p => if p < 6 then p + 1 else 0) (n - 1) p

/-- The chromosome invariant can be checked on a concrete memory. -/
instance decChain (m : Memory) : (p : Ptr) → (rest : List Ptr) → Decidable (Chain m p rest)
  | p, [] => inferInstanceAs (Decidable (p ≠ 0 ∧ m.next p = 0))
  | p, q :: rest =>
    have := decChain m q rest
    inferInstanceAs (Decidable (p ≠ 0 ∧ m.next p = q ∧ Chain m q rest))

end Shackleton

/-!
Part 2: the evolutionary driver.

Only the declarations of the two entry points (`src/evolution/evolution.h`) are
at hand; their bodies are modelled from the specification's description of the
Generation Driver and Evolution Runner.
-/

namespace Evolution

/-- Scalar fitness.  The ordering is fixed as: greater is better, and on a tie
the individual seen first wins. -/
abbrev Fitness := Int

/-- The error taxonomy of the specification. -/
inductive Error where
  | ConfigurationError
  | StructuralInvariantViolation
  | UnsupportedObjectType
  | EvaluationError
  | NotEvaluated
deriving DecidableEq, Repr

/-- A chromosome: its ordered node payloads and its cached fitness, `none` while
the chromosome is dirty or fresh. -/
structure Chromosome where
  nodes : List Nat
  fitness : Option Fitness
deriving DecidableEq, Repr

/-- The instantaneous generation, by array position. -/
abbrev Population := List Chromosome

/-- Record of one generation: index, population snapshot, best-so-far chromosome
with its fitness. -/
structure Generation where
  index : Nat
  population : Population
  bestEver : Option (Chromosome × Fitness)
deriving DecidableEq, Repr

/-- Memo table from structural signature (the node sequence) to fitness. -/
abbrev Cache := List (List Nat × Fitness)

/-- The parameters of an evolution run. -/
structure Params where
  num_gens : Nat
  pop_size : Nat
  indiv_size : Nat
  tourn_size : Nat
  mut_perc : Nat
  cross_perc : Nat
  ot : Nat
  withReplacement : Bool
  cacheEnabled : Bool
deriving DecidableEq, Repr

/-- The parameter constraints of the external-interface table. -/
def Params.valid (p : Params) : Bool :=
  decide (1 ≤ p.num_gens) && decide (1 ≤ p.pop_size) && decide (1 ≤ p.indiv_size)
    && decide (1 ≤ p.tourn_size) && decide (p.tourn_size ≤ p.pop_size)
    && decide (p.mut_perc ≤ 100) && decide (p.cross_perc ≤ 100)

/-- The external collaborators and the seedable random source threaded through
every call: `randomNode ot` draws a node payload of the given object type,
`uniform n` draws a number (reduced below `n` by the caller), `evaluate` is the
fitness objective, `mutate` and `crossover` are the variation operators
(crossover returning one or two offspring). -/
structure Collaborators (Rng : Type) where
  randomNode : Nat → Rng → Nat × Rng
  uniform : Nat → Rng → Nat × Rng
  evaluate : List Nat → Except Error Fitness
  mutate : List Nat → Rng → Except Error (List Nat × Rng)
  crossover : List Nat → List Nat → Rng → Except Error (List Nat × Option (List Nat) × Rng)

/-- The state the Generation Driver carries. -/
structure State (Rng : Type) where
  generation : Nat
  population : Population
  bestEver : Option (Chromosome × Fitness)
  cache : Cache
  rng : Rng
  history : List Generation

/-- What a run hands back: the best chromosome observed, its fitness, and the
generation records `0 .. num_gens`. -/
structure Result where
  best : Chromosome
  bestFitness : Fitness
  generations : List Generation
deriving DecidableEq, Repr

/-- Modelled from the spec: the node sequence built by `Chromosome.create`
(section 4.1), `size` randomly initialised nodes. -/
def createNodes {Rng : Type} (c : Collaborators Rng) (ot : Nat) : Nat → Rng → List Nat × Rng
  | 0, rng => ([], rng)
  | k + 1, rng =>
    let d := c.randomNode ot rng
    let r := createNodes c ot k d.2
    (d.1 :: r.1, r.2)

/-- Modelled from the spec: `Chromosome.create(size, objectType, rng)` (section
4.1), failing with `ConfigurationError` when `size == 0`; the new chromosome is
not evaluated. -/
def Chromosome.create {Rng : Type} (c : Collaborators Rng) (size ot : Nat) (rng : Rng) :
    Except Error (Chromosome × Rng) :=
  if size = 0 then .error .ConfigurationError
  else
    let r := createNodes c ot size rng
    .ok ({ nodes := r.1, fitness := none }, r.2)

/-- Modelled from the spec: the member-by-member loop of `Population.initialize`. -/
def initializeLoop {Rng : Type} (c : Collaborators Rng) (indivSize ot : Nat) :
    Nat → Rng → Except Error (Population × Rng)
  | 0, rng => .ok ([], rng)
  | k + 1, rng =>
    match Chromosome.create c indivSize ot rng with
    | .error e => .error e
    | .ok (x, rng1) =>
      match initializeLoop c indivSize ot k rng1 with
      | .error e => .error e
      | .ok (xs, rng2) => .ok (x :: xs, rng2)

/-- Modelled from the spec: `Population.initialize(popSize, indivSize, objectType, rng)`
(section 4.2), failing with `ConfigurationError` when `popSize == 0`. -/
def Population.initialize {Rng : Type} (c : Collaborators Rng) (popSize indivSize ot : Nat)
    (rng : Rng) : Except Error (Population × Rng) :=
  if popSize = 0 then .error .ConfigurationError
  else initializeLoop c indivSize ot popSize rng

/-- Modelled from the spec: the comparison loop behind `Population.best` and the
tournament: the champion is replaced only by a strictly better entrant, so the
first seen wins a tie; an entrant without fitness is `NotEvaluated`. -/
def champion {α : Type} (fit : α → Option Fitness) : α → Fitness → List α → Except Error (α × Fitness)
  | champ, fc, [] => .ok (champ, fc)
  | champ, fc, x :: xs =>
    match fit x with
    | none => .error .NotEvaluated
    | some f => if fc < f then champion fit x f xs else champion fit champ fc xs

/-- Modelled from the spec: the fitness-optimal element of a list under the fixed
ordering; an empty list is a `ConfigurationError`. -/
def optimum {α : Type} (fit : α → Option Fitness) : List α → Except Error (α × Fitness)
  | [] => .error .ConfigurationError
  | x :: xs =>
    match fit x with
    | none => .error .NotEvaluated
    | some f => champion fit x f xs

/-- Modelled from the spec: `Population.best()` (section 4.2). -/
def Population.best (pop : Population) : Except Error (Chromosome × Fitness) :=
  optimum (fun x => x.fitness) pop

/-- Modelled from the spec: the population members tagged with their array
position, counted from `i`. -/
def indexed : Nat → Population → List (Nat × Chromosome)
  | _, [] => []
  | i, x :: xs => (i, x) :: indexed (i + 1) xs

/-- Modelled from the spec: sampling of `k` distinct candidates without
repetition within one tournament (section 4.3); a candidate drawn is removed
from the pool. -/
def sample {Rng : Type} (c : Collaborators Rng) :
    Nat → List (Nat × Chromosome) → Rng → List (Nat × Chromosome) × Rng
  | 0, _, rng => ([], rng)
  | k + 1, cands, rng =>
    let d := c.uniform cands.length rng
    match cands[d.1 % cands.length]? with
    | none => ([], d.2)
    | some e =>
      let r := sample c k (cands.eraseIdx (d.1 % cands.length)) d.2
      (e :: r.1, r.2)

/-- Modelled from the spec: `select(population, tournSize, rng)` (section 4.3):
`ConfigurationError` when `tournSize == 0` or `tournSize > population.size()`;
otherwise a tournament among distinct sampled members, leaving out the positions
in `excluded`, won by the fitness-optimal one.  The winner comes with its
position. -/
def select {Rng : Type} (c : Collaborators Rng) (pop : Population) (excluded : List Nat)
    (tournSize : Nat) (rng : Rng) : Except Error ((Nat × Chromosome) × Rng) :=
  if tournSize = 0 ∨ pop.length < tournSize then .error .ConfigurationError
  else
    let cands := (indexed 0 pop).filter (fun e => !excluded.contains e.1)
    let s := sample c tournSize cands rng
    match optimum (fun e => e.2.fitness) s.1 with
    | .error e => .error e
    | .ok (w, _) => .ok (w, s.2)

/-- Modelled from the spec: the without-replacement bookkeeping of section 4.3:
have all positions of the population supplied a parent this generation? -/
def allDrawn (pop : Population) (used : List Nat) : Bool :=
  (indexed 0 pop).all (fun e => used.contains e.1)

/-- Modelled from the spec: the `SELECT` phase (sections 4.3 and 4.6): one
Selector call per parent slot; without replacement the positions that have
supplied a parent are excluded until all have been drawn once, with replacement
nothing is excluded. -/
def selectParents {Rng : Type} (c : Collaborators Rng) (p : Params) (pop : Population) :
    Nat → List Nat → Rng → Except Error (List Chromosome × Rng)
  | 0, _, rng => .ok ([], rng)
  | k + 1, used, rng =>
    let excluded := if p.withReplacement then [] else if allDrawn pop used then [] else used
    match select c pop excluded p.tourn_size rng with
    | .error e => .error e
    | .ok (w, rng1) =>
      match selectParents c p pop k (w.1 :: excluded) rng1 with
      | .error e => .error e
      | .ok (ps, rng2) => .ok (w.2 :: ps, rng2)

/-- Modelled from the spec: the mutation half of the Variation Gate (section
4.4): a roll below `mut_perc` sends the individual to the external mutation
operator, whose result must be a non-empty chromosome and is dirty. -/
def mutationGate {Rng : Type} (c : Collaborators Rng) (p : Params) (x : Chromosome) (rng : Rng) :
    Except Error (Chromosome × Rng) :=
  let d := c.uniform 100 rng
  if d.1 % 100 < p.mut_perc then
    match c.mutate x.nodes d.2 with
    | .error e => .error e
    | .ok (ns, rng1) =>
      if ns = [] then .error .StructuralInvariantViolation
      else .ok ({ nodes := ns, fitness := none }, rng1)
  else .ok (x, d.2)

/-- Modelled from the spec: the crossover half of the Variation Gate (section
4.4): an independent roll below `cross_perc` pairs the individual with a mate
from an additional Selector draw; the first offspring takes the individual's
slot and is dirty. -/
def crossoverGate {Rng : Type} (c : Collaborators Rng) (p : Params) (pop : Population)
    (x : Chromosome) (rng : Rng) : Except Error (Chromosome × Rng) :=
  let d := c.uniform 100 rng
  if d.1 % 100 < p.cross_perc then
    match select c pop [] p.tourn_size d.2 with
    | .error e => .error e
    | .ok (mate, rng1) =>
      match c.crossover x.nodes mate.2.nodes rng1 with
      | .error e => .error e
      | .ok (child, _, rng2) =>
        if child = [] then .error .StructuralInvariantViolation
        else .ok ({ nodes := child, fitness := none }, rng2)
  else .ok (x, d.2)

/-- Modelled from the spec: the Variation Gate for one individual advancing into
the next generation (section 4.4). -/
def varyOne {Rng : Type} (c : Collaborators Rng) (p : Params) (pop : Population)
    (x : Chromosome) (rng : Rng) : Except Error (Chromosome × Rng) :=
  match mutationGate c p x rng with
  | .error e => .error e
  | .ok (y, rng1) => crossoverGate c p pop y rng1

/-- Modelled from the spec: the `VARY` phase (section 4.6), each selected parent
routed through the Variation Gate. -/
def varyAll {Rng : Type} (c : Collaborators Rng) (p : Params) (pop : Population) :
    List Chromosome → Rng → Except Error (List Chromosome × Rng)
  | [], rng => .ok ([], rng)
  | x :: xs, rng =>
    match varyOne c p pop x rng with
    | .error e => .error e
    | .ok (y, rng1) =>
      match varyAll c p pop xs rng1 with
      | .error e => .error e
      | .ok (ys, rng2) => .ok (y :: ys, rng2)

/-- Modelled from the spec: `lookup(signature)` of the Evaluation Cache (section 4.5). -/
def Cache.lookup : Cache → List Nat → Option Fitness
  | [], _ => none
  | (sig, f) :: rest, s => if sig = s then some f else Cache.lookup rest s

/-- Modelled from the spec: `store(signature, fitness)` of the Evaluation Cache
(section 4.5), idempotent, entries never invalidated once written. -/
def Cache.store (cache : Cache) (s : List Nat) (f : Fitness) : Cache :=
  match Cache.lookup cache s with
  | some _ => cache
  | none => (s, f) :: cache

/-- Modelled from the spec: evaluation of one chromosome in `EVALUATE` (section
4.6): a clean chromosome keeps its fitness; otherwise the cache is consulted
when enabled and on a miss the external evaluator is invoked and the value
stored. -/
def evaluateOne {Rng : Type} (c : Collaborators Rng) (cacheEnabled : Bool) (cache : Cache)
    (x : Chromosome) : Except Error (Chromosome × Cache) :=
  match x.fitness with
  | some _ => .ok (x, cache)
  | none =>
    match (if cacheEnabled then Cache.lookup cache x.nodes else none) with
    | some f => .ok ({ x with fitness := some f }, cache)
    | none =>
      match c.evaluate x.nodes with
      | .error e => .error e
      | .ok f =>
        .ok ({ x with fitness := some f },
          if cacheEnabled then Cache.store cache x.nodes f else cache)

/-- Modelled from the spec: the pass of `EVALUATE` over the population. -/
def evaluateAll {Rng : Type} (c : Collaborators Rng) (cacheEnabled : Bool) :
    Population → Cache → Except Error (Population × Cache)
  | [], cache => .ok ([], cache)
  | x :: xs, cache =>
    match evaluateOne c cacheEnabled cache x with
    | .error e => .error e
    | .ok (y, cache1) =>
      match evaluateAll c cacheEnabled xs cache1 with
      | .error e => .error e
      | .ok (ys, cache2) => .ok (y :: ys, cache2)

/-- Modelled from the spec: the elitism rule of `EVALUATE`: `bestEver` is replaced
only when this generation's best beats it. -/
def updateBest (bestEver : Option (Chromosome × Fitness)) (genBest : Chromosome × Fitness) :
    Chromosome × Fitness :=
  match bestEver with
  | none => genBest
  | some b => if b.2 < genBest.2 then genBest else b

/-- Modelled from the spec: the `EVALUATE` state (section 4.6); the generation's
record is filed once its population is evaluated. -/
def evaluatePhase {Rng : Type} (c : Collaborators Rng) (p : Params) (s : State Rng) :
    Except Error (State Rng) :=
  match evaluateAll c p.cacheEnabled s.population s.cache with
  | .error e => .error e
  | .ok (pop, cache) =>
    match Population.best pop with
    | .error e => .error e
    | .ok genBest =>
      let best := updateBest s.bestEver genBest
      .ok { s with
            population := pop
            cache := cache
            bestEver := some best
            history := s.history ++
              [{ index := s.generation, population := pop, bestEver := some best }] }

/-- Modelled from the spec: the `REPLACE` state (section 4.6): the varied set
becomes the next population and the generation index advances. -/
def replacePhase {Rng : Type} (s : State Rng) (offspring : Population) (rng : Rng) : State Rng :=
  { s with population := offspring, generation := s.generation + 1, rng := rng }

/-- Modelled from the spec: the Generation Driver loop (section 4.6),
`EVALUATE → SELECT → VARY → REPLACE` repeated for the remaining generations. -/
def generations {Rng : Type} (c : Collaborators Rng) (p : Params) :
    Nat → State Rng → Except Error (State Rng)
  | 0, s => .ok s
  | k + 1, s =>
    match evaluatePhase c p s with
    | .error e => .error e
    | .ok s1 =>
      match selectParents c p s1.population p.pop_size [] s1.rng with
      | .error e => .error e
      | .ok (parents, rng1) =>
        match varyAll c p s1.population parents rng1 with
        | .error e => .error e
        | .ok (offspring, rng2) => generations c p k (replacePhase s1 offspring rng2)

/-- Modelled from the spec: the Evolution Runner (sections 4.6, 6 and 7): invalid
parameters are rejected before any generation runs; `INIT`, then the driver for
`num_gens` generations, then `TERMINATE` returning `bestEver` with the records of
generations `0 .. num_gens`. -/
def run {Rng : Type} (c : Collaborators Rng) (p : Params) (rng : Rng) : Except Error Result :=
  if p.valid = false then .error .ConfigurationError
  else
    match Population.initialize c p.pop_size p.indiv_size p.ot rng with
    | .error e => .error e
    | .ok (pop, rng1) =>
      match generations c p p.num_gens
          { generation := 0, population := pop, bestEver := none, cache := [], rng := rng1,
            history := [] } with
      | .error e => .error e
      | .ok s =>
        match s.bestEver with
        | none => .error .NotEvaluated
        | some b =>
          .ok { best := b.1, bestFitness := b.2,
                generations := s.history ++
                  [{ index := s.generation, population := s.population,
                     bestEver := s.bestEver }] }

/-- Modelled from the spec: body of the entry point
`evolution_basic_crossover_and_mutation` declared in `evolution.h`: selection
without replacement, no evaluation cache. -/
def evolution_basic_crossover_and_mutation {Rng : Type} (c : Collaborators Rng)
    (num_gens pop_size indiv_size tourn_size mut_perc cross_perc ot : Nat) (rng : Rng) :
    Except Error Result :=
  run c { num_gens := num_gens, pop_size := pop_size, indiv_size := indiv_size,
          tourn_size := tourn_size, mut_perc := mut_perc, cross_perc := cross_perc, ot := ot,
          withReplacement := false, cacheEnabled := false } rng

/-- Modelled from the spec: body of the entry point
`evolution_basic_crossover_and_mutation_with_replacement` declared in
`evolution.h`: selection with replacement, evaluation cache on request. -/
def evolution_basic_crossover_and_mutation_with_replacement {Rng : Type}
    (c : Collaborators Rng)
    (num_gens pop_size indiv_size tourn_size mut_perc cross_perc ot : Nat) (rng : Rng)
    (cache : Bool) : Except Error Result :=
  run c { num_gens := num_gens, pop_size := pop_size, indiv_size := indiv_size,
          tourn_size := tourn_size, mut_perc := mut_perc, cross_perc := cross_perc, ot := ot,
          withReplacement := true, cacheEnabled := cache } rng

/-- The invariant the driver keeps between generations: the population and every
filed record hold `pop_size` individuals, the records are those of generations
`0 .. generation - 1`, `bestEver` is an evaluated member of a filed record, no
fitness on a member of a record or of the current population exceeds the fitness
of `bestEver`, and `bestEver` is set once a generation has been evaluated. -/
def Inv {Rng : Type} (p : Params) (s : State Rng) : Prop :=
  s.population.length = p.pop_size ∧
  (∀ g ∈ s.history, g.population.length = p.pop_size) ∧
  s.history.map (fun g => g.index) = List.range s.generation ∧
  (∀ b, s.bestEver = some b →
    b.1.fitness = some b.2 ∧ ∃ g ∈ s.history, b.1 ∈ g.population) ∧
  (∀ g ∈ s.history, ∀ x ∈ g.population, ∀ f, x.fitness = some f →
    ∃ b, s.bestEver = some b ∧ f ≤ b.2) ∧
  (∀ x ∈ s.population, ∀ f, x.fitness = some f → ∃ b, s.bestEver = some b ∧ f ≤ b.2) ∧
  (0 < s.generation → s.bestEver ≠ none)

/-- What the entry points promise about a result `r` for `num_gens` generations
of `pop_size` individuals: the best individual is an evaluated member of some
generation, and no fitness recorded on any individual of any generation is
better than its fitness. -/
def BestObserved (r : Result) : Prop :=
  r.best.fitness = some r.bestFitness ∧
  (∃ g ∈ r.generations, r.best ∈ g.population) ∧
  ∀ g ∈ r.generations, ∀ x ∈ g.population, ∀ f, x.fitness = some f → f ≤ r.bestFitness

/-- Every generation record of `r`, for indices `0 .. num_gens`, holds exactly
`pop_size` individuals. -/
def SizeKept (num_gens pop_size : Nat) (r : Result) : Prop :=
  r.generations.map (fun g => g.index) = List.range (num_gens + 1) ∧
  ∀ g ∈ r.generations, g.population.length = pop_size

/-- Collaborators that never fail and return non-empty chromosomes. -/
def Collaborators.Reliable {Rng : Type} (c : Collaborators Rng) : Prop :=
  (∀ ns, ∃ f, c.evaluate ns = .ok f) ∧
  (∀ ns rng, ∃ r, c.mutate ns rng = .ok r ∧ r.1 ≠ []) ∧
  (∀ a b rng, ∃ r, c.crossover a b rng = .ok r ∧ r.1 ≠ [])

/-- A small deterministic set of collaborators for worked examples: the random
source is a linear congruential generator, fitness is the sum of the payloads,
mutation increments the first node, crossover keeps the first node of one parent
and the tail of the other. -/
def demo : Collaborators Nat where
  randomNode := fun _ s => ((s * 75 + 74) % 65537 % 10, (s * 75 + 74) % 65537)
  uniform := fun _ s => ((s * 75 + 74) % 65537, (s * 75 + 74) % 65537)
  evaluate := fun ns => .ok (Int.ofNat ns.sum)
  mutate := fun ns s =>
    match ns with
    | [] => .error .StructuralInvariantViolation
    | n :: rest => .ok ((n + 1) :: rest, s)
  crossover := fun a b s =>
    match a with
    | [] => .error .StructuralInvariantViolation
    | n :: _ => .ok (n :: b.tail, none, s)

end Evolution

/-! ## Part 1, theorems: the printers of `visualization.c` -/

namespace Shackleton

theorem Chain.ne_null {m : Memory} {p : Ptr} {rest : List Ptr} (h : Chain m p rest) : p ≠ 0 := by
  cases rest with
  | nil => exact h.1
  | cons q rest => exact h.1

theorem Chain.suffix {m : Memory} :
    ∀ (pre : List Ptr) (p : Ptr) (rest : List Ptr) (q : Ptr) (suf : List Ptr),
      Chain m p rest → p :: rest = pre ++ q :: suf → Chain m q suf := by
  intro pre
  induction pre with
  | nil =>
    intro p rest q suf hc he
    simp only [List.nil_append, List.cons.injEq] at he
    obtain ⟨rfl, rfl⟩ := he
    exact hc
  | cons a pre ih =>
    intro p rest q suf hc he
    simp only [List.cons_append, List.cons.injEq] at he
    obtain ⟨rfl, rfl⟩ := he
    cases pre with
    | nil => exact hc.2.2
    | cons b pre => exact ih b (pre ++ q :: suf) q suf hc.2.2 rfl

theorem sep_block (out : String) (f : Ptr → String) (n : Ptr) :
    out ++ " <---> \x7b " ++ f n ++ " \x7d" = out ++ " <---> " ++ block f n := by
  have h : " <---> \x7b " = " <---> " ++ "\x7b " := by decide
  simp only [block, h, String.append_assoc]

theorem sep_block_fmt (out : String) (f : Ptr → String) (n : Ptr) :
    out ++ (" <---> \x7b " ++ f n ++ " \x7d") = out ++ " <---> " ++ block f n := by
  have h : " <---> \x7b " = " <---> " ++ "\x7b " := by decide
  simp only [block, h, String.append_assoc]

theorem head_block (f : Ptr → String) (n : Ptr) : "" ++ "\x7b " ++ f n ++ " \x7d" = block f n := by
  simp [block]

theorem go_cons (acc sep a : String) (as : List String) :
    String.intercalate.go acc sep (a :: as) = String.intercalate.go (acc ++ sep ++ a) sep as := rfl

theorem go_nil (acc sep : String) : String.intercalate.go acc sep [] = acc := rfl

theorem go_append (sep : String) :
    ∀ (xs ys : List String) (acc : String),
      String.intercalate.go acc sep (xs ++ ys)
        = String.intercalate.go (String.intercalate.go acc sep xs) sep ys := by
  intro xs
  induction xs with
  | nil => intro ys acc; rfl
  | cons x xs ih => intro ys acc; simp only [List.cons_append, go_cons, ih]

theorem go_acc (sep : String) :
    ∀ (xs : List String) (acc : String),
      String.intercalate.go acc sep xs = acc ++ String.intercalate.go "" sep xs := by
  intro xs
  induction xs with
  | nil => intro acc; simp [go_nil]
  | cons x xs ih =>
    intro acc
    rw [go_cons, go_cons, ih (acc ++ sep ++ x), ih ("" ++ sep ++ x)]
    simp [String.append_assoc]

theorem go_length (sep : String) :
    ∀ (xs : List String) (acc : String),
      (String.intercalate.go acc sep xs).length
        = acc.length + (xs.map (fun x => sep.length + x.length)).sum := by
  intro xs
  induction xs with
  | nil => intro acc; simp [go_nil]
  | cons x xs ih =>
    intro acc
    rw [go_cons, ih]
    simp only [String.length_append, List.map_cons, List.sum_cons]
    omega

theorem joined_cons (f : Ptr → String) (p : Ptr) (rest : List Ptr) :
    joined f (p :: rest) = String.intercalate.go (block f p) " <---> " (rest.map (block f)) := rfl

theorem rendering_eq_joined (f : Ptr → String) (nodes : List Ptr) :
    rendering f nodes = joined f nodes := by
  cases nodes with
  | nil => rfl
  | cons p rest =>
    rw [joined_cons]
    have hb : "\x7b " ++ f p ++ " \x7d" = block f p := rfl
    simp only [rendering, hb]
    generalize block f p = acc
    induction rest generalizing acc with
    | nil => rfl
    | cons q rest ih =>
      simp only [List.foldl_cons, List.map_cons, go_cons]
      rw [ih, sep_block]

theorem concise_details_loop_chain (m : Memory) :
    ∀ (rest : List Ptr) (fuel : Nat) (p : Ptr) (out : String),
      Chain m p rest → rest.length ≤ fuel →
      concise_details_loop m fuel p out =
        .returned (String.intercalate.go out " <---> "
          (rest.map (block m.osaka_printnode_concise))) := by
  intro rest
  induction rest with
  | nil =>
    intro fuel p out hc _
    obtain ⟨hp, hn⟩ := hc
    cases fuel <;> simp [concise_details_loop, hp, hn, go_nil]
  | cons q rest ih =>
    intro fuel p out hc hf
    obtain ⟨hp, hn, hq⟩ := hc
    have hq0 : q ≠ 0 := hq.ne_null
    cases fuel with
    | zero => simp at hf
    | succ f =>
      have hf2 : rest.length ≤ f := by simpa using hf
      simp only [concise_details_loop, hp, hn, hq0, if_false, ne_eq, not_false_eq_true, if_true,
        List.map_cons, go_cons]
      rw [ih f q _ hq hf2, sep_block]

theorem concise_addresses_loop_chain (m : Memory) :
    ∀ (rest : List Ptr) (fuel : Nat) (p : Ptr) (out : String),
      Chain m p rest → rest.length ≤ fuel →
      concise_addresses_loop m fuel p out =
        .returned (String.intercalate.go out " <---> " (rest.map (block m.fmt_p))) := by
  intro rest
  induction rest with
  | nil =>
    intro fuel p out hc _
    obtain ⟨hp, hn⟩ := hc
    cases fuel <;> simp [concise_addresses_loop, hp, hn, go_nil]
  | cons q rest ih =>
    intro fuel p out hc hf
    obtain ⟨hp, hn, hq⟩ := hc
    have hq0 : q ≠ 0 := hq.ne_null
    cases fuel with
    | zero => simp at hf
    | succ f =>
      have hf2 : rest.length ≤ f := by simpa using hf
      simp only [concise_addresses_loop, hp, hn, hq0, if_false, ne_eq, not_false_eq_true,
        if_true, List.map_cons, go_cons]
      rw [ih f q _ hq hf2, sep_block_fmt]

theorem from_nth_loop_eq (m : Memory) :
    ∀ (fuel : Nat) (p : Ptr) (out : String),
      concise_details_from_nth_loop m fuel p out = concise_details_loop m fuel p out := by
  intro fuel
  induction fuel with
  | zero => intro p out; rfl
  | succ f ih =>
    intro p out
    simp only [concise_details_from_nth_loop, concise_details_loop, ih]

theorem from_nth_to_mth_loop_eq (m : Memory) (nth : Nat) :
    ∀ (fuel : Nat) (p : Ptr) (curr : Nat) (out : String),
      concise_details_from_nth_to_mth_loop m nth fuel p curr out
        = concise_details_to_nth_loop m nth fuel p curr out := by
  intro fuel
  induction fuel with
  | zero => intro p curr out; rfl
  | succ f ih =>
    intro p curr out
    simp only [concise_details_from_nth_to_mth_loop, concise_details_to_nth_loop, ih]

theorem concise_details_to_nth_loop_chain (m : Memory) (nth : Nat) (hnth : nth < UINT32_SIZE) :
    ∀ (rest : List Ptr) (fuel : Nat) (p : Ptr) (curr : Nat) (out : String),
      Chain m p rest → min rest.length (nth - curr) ≤ fuel →
      concise_details_to_nth_loop m nth fuel p curr out =
        .returned (String.intercalate.go out " <---> "
          ((rest.take (nth - curr)).map (block m.osaka_printnode_concise))) := by
  intro rest
  induction rest with
  | nil =>
    intro fuel p curr out hc _
    obtain ⟨hp, hn⟩ := hc
    cases fuel <;> simp [concise_details_to_nth_loop, hp, hn, go_nil]
  | cons q rest ih =>
    intro fuel p curr out hc hf
    obtain ⟨hp, hn, hq⟩ := hc
    have hq0 : q ≠ 0 := hq.ne_null
    by_cases hlt : curr < nth
    · obtain ⟨k, hk⟩ : ∃ k, nth - curr = k + 1 := ⟨nth - curr - 1, by omega⟩
      have hwrap : (curr + 1) % UINT32_SIZE = curr + 1 := Nat.mod_eq_of_lt (by omega)
      have hk2 : nth - (curr + 1) = k := by omega
      cases fuel with
      | zero => simp [hk] at hf
      | succ f =>
        have hf2 : min rest.length (nth - (curr + 1)) ≤ f := by
          simp only [List.length_cons, hk] at hf
          omega
        simp only [concise_details_to_nth_loop, hp, hn, hq0, hlt, if_false, ne_eq,
          not_false_eq_true, and_self, if_true, hwrap]
        rw [ih f q (curr + 1) _ hq hf2, hk, hk2, List.take_succ_cons, List.map_cons, go_cons,
          sep_block]
    · have h0 : nth - curr = 0 := by omega
      cases fuel <;> simp [concise_details_to_nth_loop, hp, hlt, h0, go_nil]


theorem take_blocks (p : Ptr) (rest : List Ptr) (j : Nat) :
    (p :: rest).take (min (rest.length + 1) (max 1 j)) = p :: rest.take (j - 1) := by
  have h : min (rest.length + 1) (max 1 j) = min rest.length (j - 1) + 1 := by omega
  rw [h, List.take_succ_cons]
  congr 1
  rw [List.take_eq_take]
  omega

theorem go_take_eq_iff (sep : String) (hsep : 0 < sep.length) (acc : String) (xs : List String)
    (k : Nat) :
    String.intercalate.go acc sep (xs.take k) = String.intercalate.go acc sep xs
      ↔ xs.length ≤ k := by
  constructor
  · intro h
    by_contra hk
    have hlen := congrArg String.length h
    rw [go_length, go_length] at hlen
    conv at hlen => rhs; rw [← List.take_append_drop k xs]
    rw [List.map_append, List.sum_append] at hlen
    cases hd : xs.drop k with
    | nil =>
      have := List.drop_eq_nil_iff.mp hd
      omega
    | cons d ds =>
      rw [hd] at hlen
      simp only [List.map_cons, List.sum_cons] at hlen
      omega
  · intro h
    rw [List.take_of_length_le h]

theorem details_on_chain (m : Memory) (indiv : Ptr) (rest : List Ptr) (fuel : Nat)
    (hc : Chain m indiv rest) (hf : rest.length ≤ fuel) :
    visualization_print_individual_concise_details m fuel indiv
      = .returned (joined m.osaka_printnode_concise (indiv :: rest)) := by
  simp only [visualization_print_individual_concise_details, head_block]
  rw [concise_details_loop_chain m rest fuel indiv _ hc hf, joined_cons]

theorem to_nth_on_chain (m : Memory) (indiv : Ptr) (rest : List Ptr) (nth fuel : Nat)
    (hc : Chain m indiv rest) (hn : nth < UINT32_SIZE) (hf : min rest.length (nth - 2) ≤ fuel) :
    visualization_print_individual_concise_details_to_nth m fuel indiv nth
      = .returned (String.intercalate.go (block m.osaka_printnode_concise indiv) " <---> "
          ((rest.take (nth - 2)).map (block m.osaka_printnode_concise))) := by
  simp only [visualization_print_individual_concise_details_to_nth, head_block]
  rw [concise_details_to_nth_loop_chain m nth hn rest fuel indiv 2 _ hc hf]

theorem from_nth_to_mth_on_chain (m : Memory) (indiv : Ptr) (rest : List Ptr)
    (nth mth fuel : Nat) (hc : Chain m (m.osaka_nthnode indiv nth) rest)
    (hn : nth < UINT32_SIZE) (hf : min rest.length (nth - 1) ≤ fuel) :
    visualization_print_individual_concise_details_from_nth_to_mth m fuel indiv nth mth
      = .returned (String.intercalate.go
          (block m.osaka_printnode_concise (m.osaka_nthnode indiv nth)) " <---> "
          ((rest.take (nth - 1)).map (block m.osaka_printnode_concise))) := by
  simp only [visualization_print_individual_concise_details_from_nth_to_mth, head_block,
    from_nth_to_mth_loop_eq]
  rw [concise_details_to_nth_loop_chain m nth hn rest fuel _ 1 _ hc hf]

theorem from_nth_eq_details (m : Memory) (fuel : Nat) (indiv : Ptr) (nth : Nat) :
    visualization_print_individual_concise_details_from_nth m fuel indiv nth
      = visualization_print_individual_concise_details m fuel (m.osaka_nthnode indiv nth) := by
  simp only [visualization_print_individual_concise_details_from_nth,
    visualization_print_individual_concise_details, from_nth_loop_eq]

theorem details_loop_nullRead (m : Memory) :
    ∀ (fuel : Nat) (p : Ptr) (out : String),
      (∃ o, concise_details_loop m fuel p out = .nullRead o) ↔ p = 0 := by
  intro fuel
  induction fuel with
  | zero =>
    intro p out
    by_cases hp : p = 0
    · simp [concise_details_loop, hp]
    · by_cases hn : m.next p = 0 <;> simp [concise_details_loop, hp, hn]
  | succ f ih =>
    intro p out
    by_cases hp : p = 0
    · simp [concise_details_loop, hp]
    · by_cases hn : m.next p = 0
      · simp [concise_details_loop, hp, hn]
      · simp only [concise_details_loop, hp, hn, if_false, ne_eq, not_false_eq_true, if_true,
          ih, iff_self]

theorem addresses_loop_nullRead (m : Memory) :
    ∀ (fuel : Nat) (p : Ptr) (out : String),
      (∃ o, concise_addresses_loop m fuel p out = .nullRead o) ↔ p = 0 := by
  intro fuel
  induction fuel with
  | zero =>
    intro p out
    by_cases hp : p = 0
    · simp [concise_addresses_loop, hp]
    · by_cases hn : m.next p = 0 <;> simp [concise_addresses_loop, hp, hn]
  | succ f ih =>
    intro p out
    by_cases hp : p = 0
    · simp [concise_addresses_loop, hp]
    · by_cases hn : m.next p = 0
      · simp [concise_addresses_loop, hp, hn]
      · simp only [concise_addresses_loop, hp, hn, if_false, ne_eq, not_false_eq_true, if_true,
          ih, iff_self]

theorem to_nth_loop_nullRead (m : Memory) (nth : Nat) :
    ∀ (fuel : Nat) (p : Ptr) (curr : Nat) (out : String),
      (∃ o, concise_details_to_nth_loop m nth fuel p curr out = .nullRead o) ↔ p = 0 := by
  intro fuel
  induction fuel with
  | zero =>
    intro p curr out
    by_cases hp : p = 0
    · simp [concise_details_to_nth_loop, hp]
    · by_cases hn : m.next p ≠ 0 ∧ curr < nth <;> simp [concise_details_to_nth_loop, hp, hn]
  | succ f ih =>
    intro p curr out
    by_cases hp : p = 0
    · simp [concise_details_to_nth_loop, hp]
    · by_cases hn : m.next p ≠ 0 ∧ curr < nth
      · obtain ⟨h1, h2⟩ := hn
        have h3 : m.next p = 0 ↔ False := ⟨h1, False.elim⟩
        simp only [concise_details_to_nth_loop, hp, h1, h2, if_false, ne_eq, not_false_eq_true,
          and_self, if_true, ih, h3]
      · simp [concise_details_to_nth_loop, hp, hn]

theorem addresses_on_chain (m : Memory) (indiv : Ptr) (rest : List Ptr) (fuel : Nat)
    (hc : Chain m indiv rest) (hf : rest.length ≤ fuel) :
    visualization_print_individual_concise_addresses m fuel indiv
      = .returned (String.intercalate.go (block m.fmt_p indiv) " <---> "
          (rest.map (block m.fmt_p))) := by
  have hb : "" ++ ("\x7b " ++ m.fmt_p indiv ++ " \x7d") = block m.fmt_p indiv := by simp [block]
  simp only [visualization_print_individual_concise_addresses, hb]
  rw [concise_addresses_loop_chain m rest fuel indiv _ hc hf]


/-- C1: `visualization_print_individual_concise_details_from_nth_to_mth` does not
print through node `mth`.  On the documented example `(osaka_indiv, 2, 6)`, run on
the six-node chromosome `1 .. 6` with a 1-based `osaka_nthnode`, the start node
is node 2 and the function returns after printing nodes 2 and 3, whereas the
range from node 2 to node 6 has five blocks. -/
theorem from_nth_to_mth_example_stops_early :
    Chain sixNodes 1 [2, 3, 4, 5, 6] ∧ sixNodes.osaka_nthnode 1 2 = 2 ∧
    visualization_print_individual_concise_details_from_nth_to_mth sixNodes 5 1 2 6
      = .returned "\x7b 2 \x7d <---> \x7b 3 \x7d" ∧
    joined sixNodes.osaka_printnode_concise [2, 3, 4, 5, 6]
      = "\x7b 2 \x7d <---> \x7b 3 \x7d <---> \x7b 4 \x7d <---> \x7b 5 \x7d <---> \x7b 6 \x7d" := by
  decide

/-- C2: `visualization_print_individual_concise_details_to_nth` does not print
node `nth` itself.  On the six-node chromosome `1 .. 6` with `nth = 3` it
returns after printing nodes 1 and 2, whereas nodes `1 .. 3` joined are three
blocks. -/
theorem to_nth_example_stops_early :
    Chain sixNodes 1 [2, 3, 4, 5, 6] ∧
    visualization_print_individual_concise_details_to_nth sixNodes 5 1 3
      = .returned "\x7b 1 \x7d <---> \x7b 2 \x7d" ∧
    joined sixNodes.osaka_printnode_concise [1, 2, 3] = "\x7b 1 \x7d <---> \x7b 2 \x7d <---> \x7b 3 \x7d" := by
  decide

/-- C3: when `osaka_nthnode(indiv, nth)` is a node of the chromosome `indiv :: rest`
(it splits the chain as `pre ++ start :: suf`),
`visualization_print_individual_concise_details_from_nth(indiv, nth)` produces
the output of `visualization_print_individual_concise_details` applied to that
node, which is the rendering of the start node and every node after it up to the
tail, each once, in chain order. -/
theorem from_nth_prints_to_tail (m : Memory) (indiv : Ptr) (nth : Nat)
    (rest pre suf : List Ptr) (fuel : Nat) (hc : Chain m indiv rest)
    (hs : indiv :: rest = pre ++ m.osaka_nthnode indiv nth :: suf) (hf : suf.length ≤ fuel) :
    visualization_print_individual_concise_details_from_nth m fuel indiv nth
      = visualization_print_individual_concise_details m fuel (m.osaka_nthnode indiv nth) ∧
    visualization_print_individual_concise_details_from_nth m fuel indiv nth
      = .returned (joined m.osaka_printnode_concise (m.osaka_nthnode indiv nth :: suf)) := by
  have hsuf : Chain m (m.osaka_nthnode indiv nth) suf := Chain.suffix pre indiv rest _ suf hc hs
  refine ⟨from_nth_eq_details m fuel indiv nth, ?_⟩
  rw [from_nth_eq_details, details_on_chain m _ suf fuel hsuf hf]

/-- Witness for C3: the six-node chromosome, starting from node 3. -/
theorem from_nth_prints_to_tail_witness :
    visualization_print_individual_concise_details_from_nth sixNodes 3 1 3
      = visualization_print_individual_concise_details sixNodes 3 (sixNodes.osaka_nthnode 1 3) ∧
    visualization_print_individual_concise_details_from_nth sixNodes 3 1 3
      = .returned (joined sixNodes.osaka_printnode_concise
          (sixNodes.osaka_nthnode 1 3 :: [4, 5, 6])) :=
  from_nth_prints_to_tail sixNodes 1 3 [2, 3, 4, 5, 6] [1, 2] [4, 5, 6] 3 (by decide)
    (by decide) (by decide)

/-- C4: for a chromosome `indiv :: rest` (non-empty, `NULL`-terminated) and an
iteration budget of at least `L - 1`, `visualization_print_individual_concise_details`
returns having printed exactly `"{ " ++ concise(n1) ++ " }"` followed, for each
later node in order, by `" <---> { " ++ concise(ni) ++ " }"`. -/
theorem details_prints_whole_individual (m : Memory) (indiv : Ptr) (rest : List Ptr)
    (fuel : Nat) (hc : Chain m indiv rest) (hf : rest.length ≤ fuel) :
    visualization_print_individual_concise_details m fuel indiv
      = .returned (rest.foldl
          (fun acc n => acc ++ " <---> \x7b " ++ m.osaka_printnode_concise n ++ " \x7d")
          ("\x7b " ++ m.osaka_printnode_concise indiv ++ " \x7d")) := by
  rw [details_on_chain m indiv rest fuel hc hf, ← rendering_eq_joined]
  rfl

/-- Witness for C4: the six-node chromosome. -/
theorem details_prints_whole_individual_witness :
    visualization_print_individual_concise_details sixNodes 5 1
      = .returned ([2, 3, 4, 5, 6].foldl
          (fun acc n => acc ++ " <---> \x7b " ++ sixNodes.osaka_printnode_concise n ++ " \x7d")
          ("\x7b " ++ sixNodes.osaka_printnode_concise 1 ++ " \x7d")) :=
  details_prints_whole_individual sixNodes 1 [2, 3, 4, 5, 6] 5 (by decide) (by decide)

/-- C5: for a chromosome `indiv :: rest` of length `L`,
`visualization_print_individual_concise_addresses` returns having printed the
address of each node wrapped as `{ <addr> }`, head to tail, joined by
`" <---> "`: `L` entries over the very node list that
`visualization_print_individual_concise_details` renders. -/
theorem addresses_prints_every_node (m : Memory) (indiv : Ptr) (rest : List Ptr)
    (fuel : Nat) (hc : Chain m indiv rest) (hf : rest.length ≤ fuel) :
    visualization_print_individual_concise_addresses m fuel indiv
      = .returned (" <---> ".intercalate ((indiv :: rest).map (block m.fmt_p))) ∧
    ((indiv :: rest).map (block m.fmt_p)).length = rest.length + 1 ∧
    visualization_print_individual_concise_details m fuel indiv
      = .returned (" <---> ".intercalate
          ((indiv :: rest).map (block m.osaka_printnode_concise))) := by
  refine ⟨?_, by simp, details_on_chain m indiv rest fuel hc hf⟩
  have hb : "" ++ ("\x7b " ++ m.fmt_p indiv ++ " \x7d") = block m.fmt_p indiv := by simp [block]
  simp only [visualization_print_individual_concise_addresses, hb]
  rw [concise_addresses_loop_chain m rest fuel indiv _ hc hf]
  rfl

/-- Witness for C5: the six-node chromosome. -/
theorem addresses_prints_every_node_witness :
    visualization_print_individual_concise_addresses sixNodes 5 1
      = .returned (" <---> ".intercalate
          (([1, 2, 3, 4, 5, 6] : List Ptr).map (block sixNodes.fmt_p))) ∧
    (([1, 2, 3, 4, 5, 6] : List Ptr).map (block sixNodes.fmt_p)).length = 5 + 1 ∧
    visualization_print_individual_concise_details sixNodes 5 1
      = .returned (" <---> ".intercalate
          (([1, 2, 3, 4, 5, 6] : List Ptr).map (block sixNodes.osaka_printnode_concise))) :=
  addresses_prints_every_node sixNodes 1 [2, 3, 4, 5, 6] 5 (by decide) (by decide)

/-- C8: for a chromosome `indiv :: rest` of length `L` and a 32-bit `nth`,
`visualization_print_individual_concise_details_to_nth` returns having printed
the first `min(L, max(1, nth - 1))` blocks of the full rendering; that output is
a prefix of the full rendering, it is the head block alone for `nth ≤ 2`, and it
is the full rendering exactly when `nth ≥ L + 1` or `L = 1`. -/
theorem to_nth_prints_prefix (m : Memory) (indiv : Ptr) (rest : List Ptr) (nth fuel : Nat)
    (hc : Chain m indiv rest) (hn : nth < UINT32_SIZE) (hf : rest.length ≤ fuel) :
    visualization_print_individual_concise_details_to_nth m fuel indiv nth
      = .returned (joined m.osaka_printnode_concise
          ((indiv :: rest).take (min (rest.length + 1) (max 1 (nth - 1))))) ∧
    visualization_print_individual_concise_details m fuel indiv
      = .returned (joined m.osaka_printnode_concise (indiv :: rest)) ∧
    (∃ t, joined m.osaka_printnode_concise (indiv :: rest)
      = joined m.osaka_printnode_concise
          ((indiv :: rest).take (min (rest.length + 1) (max 1 (nth - 1)))) ++ t) ∧
    (nth ≤ 2 → visualization_print_individual_concise_details_to_nth m fuel indiv nth
      = .returned (block m.osaka_printnode_concise indiv)) ∧
    (visualization_print_individual_concise_details_to_nth m fuel indiv nth
        = visualization_print_individual_concise_details m fuel indiv
      ↔ (rest.length + 1 + 1 ≤ nth ∨ rest.length + 1 = 1)) := by
  have hf2 : min rest.length (nth - 2) ≤ fuel := le_trans (Nat.min_le_left _ _) hf
  have hto := to_nth_on_chain m indiv rest nth fuel hc hn hf2
  have hall := details_on_chain m indiv rest fuel hc hf
  have htake := take_blocks indiv rest (nth - 1)
  have h12 : nth - 1 - 1 = nth - 2 := by omega
  refine ⟨?_, hall, ?_, ?_, ?_⟩
  · rw [hto, htake, joined_cons, h12]
  · rw [htake, joined_cons, joined_cons, h12]
    refine ⟨String.intercalate.go "" " <---> "
      ((rest.drop (nth - 2)).map (block m.osaka_printnode_concise)), ?_⟩
    conv => lhs; rw [← List.take_append_drop (nth - 2) rest]
    rw [List.map_append, go_append, go_acc]
  · intro h2
    have h0 : nth - 2 = 0 := by omega
    rw [hto, h0]
    rfl
  · rw [hto, hall, joined_cons, List.map_take]
    simp only [Run.returned.injEq]
    rw [go_take_eq_iff " <---> " (by decide), List.length_map]
    omega

/-- Witness for C8: the six-node chromosome with `nth = 4`. -/
theorem to_nth_prints_prefix_witness :
    visualization_print_individual_concise_details_to_nth sixNodes 5 1 4
      = .returned (joined sixNodes.osaka_printnode_concise
          ((1 :: [2, 3, 4, 5, 6]).take (min (5 + 1) (max 1 (4 - 1))))) ∧
    visualization_print_individual_concise_details sixNodes 5 1
      = .returned (joined sixNodes.osaka_printnode_concise (1 :: [2, 3, 4, 5, 6])) ∧
    (∃ t, joined sixNodes.osaka_printnode_concise (1 :: [2, 3, 4, 5, 6])
      = joined sixNodes.osaka_printnode_concise
          ((1 :: [2, 3, 4, 5, 6]).take (min (5 + 1) (max 1 (4 - 1)))) ++ t) ∧
    (4 ≤ 2 → visualization_print_individual_concise_details_to_nth sixNodes 5 1 4
      = .returned (block sixNodes.osaka_printnode_concise 1)) ∧
    (visualization_print_individual_concise_details_to_nth sixNodes 5 1 4
        = visualization_print_individual_concise_details sixNodes 5 1
      ↔ (5 + 1 + 1 ≤ 4 ∨ 5 + 1 = 1)) :=
  to_nth_prints_prefix sixNodes 1 [2, 3, 4, 5, 6] 4 5 (by decide) (by decide) (by decide)

/-- C9: the output of `visualization_print_individual_concise_details_from_nth_to_mth`
is the same for any two values of `mth`; when the start node
`osaka_nthnode(indiv, nth)` heads a chain of `R` nodes and `nth` is 32-bit, it is
the first `min(R, max(1, nth))` blocks of what
`visualization_print_individual_concise_details_from_nth(indiv, nth)` prints. -/
theorem from_nth_to_mth_ignores_mth (m : Memory) (indiv : Ptr) (nth mth1 mth2 : Nat)
    (rest : List Ptr) (fuel : Nat) (hc : Chain m (m.osaka_nthnode indiv nth) rest)
    (hn : nth < UINT32_SIZE) (hf : rest.length ≤ fuel) :
    visualization_print_individual_concise_details_from_nth_to_mth m fuel indiv nth mth1
      = visualization_print_individual_concise_details_from_nth_to_mth m fuel indiv nth mth2 ∧
    visualization_print_individual_concise_details_from_nth_to_mth m fuel indiv nth mth1
      = .returned (joined m.osaka_printnode_concise
          ((m.osaka_nthnode indiv nth :: rest).take (min (rest.length + 1) (max 1 nth)))) ∧
    visualization_print_individual_concise_details_from_nth m fuel indiv nth
      = .returned (joined m.osaka_printnode_concise (m.osaka_nthnode indiv nth :: rest)) := by
  have hf2 : min rest.length (nth - 1) ≤ fuel := le_trans (Nat.min_le_left _ _) hf
  refine ⟨rfl, ?_, ?_⟩
  · rw [from_nth_to_mth_on_chain m indiv rest nth mth1 fuel hc hn hf2, take_blocks, joined_cons]
  · rw [from_nth_eq_details, details_on_chain m _ rest fuel hc hf]

/-- Witness for C9: the documented call `(indiv, 2, 6)` against `(indiv, 2, 3)` on
the six-node chromosome. -/
theorem from_nth_to_mth_ignores_mth_witness :
    visualization_print_individual_concise_details_from_nth_to_mth sixNodes 4 1 2 6
      = visualization_print_individual_concise_details_from_nth_to_mth sixNodes 4 1 2 3 ∧
    visualization_print_individual_concise_details_from_nth_to_mth sixNodes 4 1 2 6
      = .returned (joined sixNodes.osaka_printnode_concise
          ((sixNodes.osaka_nthnode 1 2 :: [3, 4, 5, 6]).take (min (4 + 1) (max 1 2)))) ∧
    visualization_print_individual_concise_details_from_nth sixNodes 4 1 2
      = .returned (joined sixNodes.osaka_printnode_concise
          (sixNodes.osaka_nthnode 1 2 :: [3, 4, 5, 6])) :=
  from_nth_to_mth_ignores_mth sixNodes 1 2 6 3 [3, 4, 5, 6] 4 (by decide) (by decide)
    (by decide)

/-- C10: on a chromosome `indiv :: rest` of length `L` (at least one node, links
ending in `NULL`, hence no cycle) the three head-based printers return within
`L - 1` loop iterations, so they never read the link of a null node; and for any
memory, head and iteration budget, each of them reads `NEXT` of a null node
exactly when the head itself is `NULL`. -/
theorem head_printers_safe_on_chain (m : Memory) (indiv : Ptr) (rest : List Ptr)
    (nth : Nat) (hc : Chain m indiv rest) (hn : nth < UINT32_SIZE) :
    ((∃ out, visualization_print_individual_concise_addresses m rest.length indiv
        = .returned out) ∧
     (∃ out, visualization_print_individual_concise_details m rest.length indiv
        = .returned out) ∧
     (∃ out, visualization_print_individual_concise_details_to_nth m rest.length indiv nth
        = .returned out)) ∧
    (∀ (m2 : Memory) (head : Ptr) (fuel n : Nat),
      ((∃ out, visualization_print_individual_concise_addresses m2 fuel head = .nullRead out)
        ↔ head = 0) ∧
      ((∃ out, visualization_print_individual_concise_details m2 fuel head = .nullRead out)
        ↔ head = 0) ∧
      ((∃ out, visualization_print_individual_concise_details_to_nth m2 fuel head n
        = .nullRead out) ↔ head = 0)) := by
  refine ⟨⟨⟨_, (addresses_on_chain m indiv rest rest.length hc le_rfl)⟩,
    ⟨_, details_on_chain m indiv rest rest.length hc le_rfl⟩,
    ⟨_, to_nth_on_chain m indiv rest nth rest.length hc hn (Nat.min_le_left _ _)⟩⟩, ?_⟩
  intro m2 head fuel n
  exact ⟨addresses_loop_nullRead m2 fuel head _, details_loop_nullRead m2 fuel head _,
    to_nth_loop_nullRead m2 n fuel head 2 _⟩

/-- Witness for C10: the six-node chromosome, five iterations allowed. -/
theorem head_printers_safe_on_chain_witness :
    ((∃ out, visualization_print_individual_concise_addresses sixNodes 5 1 = .returned out) ∧
     (∃ out, visualization_print_individual_concise_details sixNodes 5 1 = .returned out) ∧
     (∃ out, visualization_print_individual_concise_details_to_nth sixNodes 5 1 9
        = .returned out)) ∧
    (∀ (m2 : Memory) (head : Ptr) (fuel n : Nat),
      ((∃ out, visualization_print_individual_concise_addresses m2 fuel head = .nullRead out)
        ↔ head = 0) ∧
      ((∃ out, visualization_print_individual_concise_details m2 fuel head = .nullRead out)
        ↔ head = 0) ∧
      ((∃ out, visualization_print_individual_concise_details_to_nth m2 fuel head n
        = .nullRead out) ↔ head = 0)) :=
  head_printers_safe_on_chain sixNodes 1 [2, 3, 4, 5, 6] 9 (by decide) (by decide)

end Shackleton

/-! ## Part 2, theorems: the evolutionary driver -/

namespace Evolution

theorem champion_spec {α : Type} (fit : α → Option Fitness) :
    ∀ (xs : List α) (champ : α) (fc : Fitness) (w : α) (fw : Fitness),
      fit champ = some fc → champion fit champ fc xs = .ok (w, fw) →
      (w = champ ∨ w ∈ xs) ∧ fit w = some fw ∧ fc ≤ fw ∧
        ∀ x ∈ xs, ∀ f, fit x = some f → f ≤ fw := by
  intro xs
  induction xs with
  | nil =>
    intro champ fc w fw hc h
    simp only [champion, Except.ok.injEq, Prod.mk.injEq] at h
    obtain ⟨rfl, rfl⟩ := h
    exact ⟨Or.inl rfl, hc, le_refl _, by simp⟩
  | cons x xs ih =>
    intro champ fc w fw hc h
    simp only [champion] at h
    cases hx : fit x with
    | none => simp [hx] at h
    | some f =>
      simp only [hx] at h
      by_cases hlt : fc < f
      · simp only [hlt, if_true] at h
        obtain ⟨hm, hw, hle, hall⟩ := ih x f w fw hx h
        refine ⟨?_, hw, le_trans (le_of_lt hlt) hle, ?_⟩
        · rcases hm with rfl | hm
          · exact Or.inr (List.mem_cons_self _ _)
          · exact Or.inr (List.mem_cons_of_mem _ hm)
        · intro y hy g hg
          rcases List.mem_cons.mp hy with rfl | hy
          · rw [hx] at hg
            cases hg
            exact hle
          · exact hall y hy g hg
      · simp only [hlt, if_false] at h
        obtain ⟨hm, hw, hle, hall⟩ := ih champ fc w fw hc h
        refine ⟨?_, hw, hle, ?_⟩
        · rcases hm with rfl | hm
          · exact Or.inl rfl
          · exact Or.inr (List.mem_cons_of_mem _ hm)
        · intro y hy g hg
          rcases List.mem_cons.mp hy with rfl | hy
          · rw [hx] at hg
            cases hg
            exact le_trans (not_lt.mp hlt) hle
          · exact hall y hy g hg

theorem optimum_spec {α : Type} (fit : α → Option Fitness) (l : List α) (w : α) (fw : Fitness)
    (h : optimum fit l = .ok (w, fw)) :
    w ∈ l ∧ fit w = some fw ∧ ∀ x ∈ l, ∀ f, fit x = some f → f ≤ fw := by
  cases l with
  | nil => simp [optimum] at h
  | cons x xs =>
    simp only [optimum] at h
    cases hx : fit x with
    | none => simp [hx] at h
    | some f =>
      simp only [hx] at h
      obtain ⟨hm, hw, hle, hall⟩ := champion_spec fit xs x f w fw hx h
      refine ⟨?_, hw, ?_⟩
      · rcases hm with rfl | hm
        · exact List.mem_cons_self _ _
        · exact List.mem_cons_of_mem _ hm
      · intro y hy g hg
        rcases List.mem_cons.mp hy with rfl | hy
        · rw [hx] at hg
          cases hg
          exact hle
        · exact hall y hy g hg

theorem champion_ok {α : Type} (fit : α → Option Fitness) :
    ∀ (xs : List α) (champ : α) (fc : Fitness),
      (∀ x ∈ xs, ∃ f, fit x = some f) → ∃ r, champion fit champ fc xs = .ok r := by
  intro xs
  induction xs with
  | nil => intro champ fc _; exact ⟨_, rfl⟩
  | cons x xs ih =>
    intro champ fc hall
    obtain ⟨f, hf⟩ := hall x (List.mem_cons_self _ _)
    have hrest : ∀ y ∈ xs, ∃ f, fit y = some f := fun y hy => hall y (List.mem_cons_of_mem _ hy)
    simp only [champion, hf]
    by_cases hlt : fc < f
    · simp only [hlt, if_true]
      exact ih x f hrest
    · simp only [hlt, if_false]
      exact ih champ fc hrest

theorem optimum_ok {α : Type} (fit : α → Option Fitness) (l : List α) (hne : l ≠ [])
    (hall : ∀ x ∈ l, ∃ f, fit x = some f) : ∃ r, optimum fit l = .ok r := by
  cases l with
  | nil => exact absurd rfl hne
  | cons x xs =>
    obtain ⟨f, hf⟩ := hall x (List.mem_cons_self _ _)
    simp only [optimum, hf]
    exact champion_ok fit xs x f (fun y hy => hall y (List.mem_cons_of_mem _ hy))

theorem createNodes_length {Rng : Type} (c : Collaborators Rng) (ot : Nat) :
    ∀ (k : Nat) (rng : Rng), (createNodes c ot k rng).1.length = k := by
  intro k
  induction k with
  | zero => intro rng; rfl
  | succ k ih => intro rng; simp [createNodes, ih]

theorem initializeLoop_spec {Rng : Type} (c : Collaborators Rng) (indivSize ot : Nat) :
    ∀ (k : Nat) (rng : Rng) (xs : Population) (rng2 : Rng),
      initializeLoop c indivSize ot k rng = .ok (xs, rng2) →
      xs.length = k ∧ ∀ x ∈ xs, x.fitness = none := by
  intro k
  induction k with
  | zero =>
    intro rng xs rng2 h
    simp only [initializeLoop, Except.ok.injEq, Prod.mk.injEq] at h
    obtain ⟨rfl, _⟩ := h
    simp
  | succ k ih =>
    intro rng xs rng2 h
    simp only [initializeLoop] at h
    cases hc : Chromosome.create c indivSize ot rng with
    | error e => simp [hc] at h
    | ok r =>
      obtain ⟨x, rng1⟩ := r
      simp only [hc] at h
      cases hl : initializeLoop c indivSize ot k rng1 with
      | error e => simp [hl] at h
      | ok r2 =>
        obtain ⟨ys, rng3⟩ := r2
        simp only [hl, Except.ok.injEq, Prod.mk.injEq] at h
        obtain ⟨rfl, _⟩ := h
        obtain ⟨hlen, hfresh⟩ := ih rng1 ys rng3 hl
        have hx : x.fitness = none := by
          unfold Chromosome.create at hc
          by_cases hs : indivSize = 0
          · simp [hs] at hc
          · simp only [hs, if_false, Except.ok.injEq, Prod.mk.injEq] at hc
            rw [← hc.1]
        refine ⟨by simp [hlen], ?_⟩
        intro y hy
        rcases List.mem_cons.mp hy with rfl | hy
        · exact hx
        · exact hfresh y hy

theorem initializeLoop_ok {Rng : Type} (c : Collaborators Rng) (indivSize ot : Nat)
    (hs : indivSize ≠ 0) :
    ∀ (k : Nat) (rng : Rng), ∃ r, initializeLoop c indivSize ot k rng = .ok r := by
  intro k
  induction k with
  | zero => intro rng; exact ⟨_, rfl⟩
  | succ k ih =>
    intro rng
    simp only [initializeLoop, Chromosome.create, hs, if_false]
    obtain ⟨r, hr⟩ := ih (createNodes c ot indivSize rng).2
    rw [hr]
    exact ⟨_, rfl⟩

theorem evaluateOne_spec {Rng : Type} (c : Collaborators Rng) (ce : Bool) (cache : Cache)
    (x y : Chromosome) (cache2 : Cache) (h : evaluateOne c ce cache x = .ok (y, cache2)) :
    ∃ f, y.fitness = some f := by
  unfold evaluateOne at h
  cases hx : x.fitness with
  | some f =>
    simp only [hx, Except.ok.injEq, Prod.mk.injEq] at h
    exact ⟨f, by rw [← h.1, hx]⟩
  | none =>
    simp only [hx] at h
    cases hl : (if ce = true then Cache.lookup cache x.nodes else none) with
    | some f =>
      simp only [hl, Except.ok.injEq, Prod.mk.injEq] at h
      exact ⟨f, by rw [← h.1]⟩
    | none =>
      simp only [hl] at h
      cases he : c.evaluate x.nodes with
      | error e => simp [he] at h
      | ok f =>
        simp only [he, Except.ok.injEq, Prod.mk.injEq] at h
        exact ⟨f, by rw [← h.1]⟩

theorem evaluateOne_ok {Rng : Type} (c : Collaborators Rng) (hr : c.Reliable) (ce : Bool)
    (cache : Cache) (x : Chromosome) : ∃ r, evaluateOne c ce cache x = .ok r := by
  unfold evaluateOne
  cases hx : x.fitness with
  | some f => exact ⟨_, rfl⟩
  | none =>
    simp only
    cases hl : (if ce = true then Cache.lookup cache x.nodes else none) with
    | some f => exact ⟨_, rfl⟩
    | none =>
      obtain ⟨f, hf⟩ := hr.1 x.nodes
      simp only [hf]
      exact ⟨_, rfl⟩

theorem evaluateAll_spec {Rng : Type} (c : Collaborators Rng) (ce : Bool) :
    ∀ (xs : Population) (cache : Cache) (ys : Population) (cache2 : Cache),
      evaluateAll c ce xs cache = .ok (ys, cache2) →
      ys.length = xs.length ∧ ∀ y ∈ ys, ∃ f, y.fitness = some f := by
  intro xs
  induction xs with
  | nil =>
    intro cache ys cache2 h
    simp only [evaluateAll, Except.ok.injEq, Prod.mk.injEq] at h
    obtain ⟨rfl, _⟩ := h
    simp
  | cons x xs ih =>
    intro cache ys cache2 h
    simp only [evaluateAll] at h
    cases h1 : evaluateOne c ce cache x with
    | error e => simp [h1] at h
    | ok r =>
      obtain ⟨y, cache1⟩ := r
      simp only [h1] at h
      cases h2 : evaluateAll c ce xs cache1 with
      | error e => simp [h2] at h
      | ok r2 =>
        obtain ⟨zs, cache3⟩ := r2
        simp only [h2, Except.ok.injEq, Prod.mk.injEq] at h
        obtain ⟨rfl, _⟩ := h
        obtain ⟨hlen, hall⟩ := ih cache1 zs cache3 h2
        refine ⟨by simp [hlen], ?_⟩
        intro z hz
        rcases List.mem_cons.mp hz with rfl | hz
        · exact evaluateOne_spec c ce cache x z cache1 h1
        · exact hall z hz

theorem evaluateAll_ok {Rng : Type} (c : Collaborators Rng) (hr : c.Reliable) (ce : Bool) :
    ∀ (xs : Population) (cache : Cache), ∃ r, evaluateAll c ce xs cache = .ok r := by
  intro xs
  induction xs with
  | nil => intro cache; exact ⟨_, rfl⟩
  | cons x xs ih =>
    intro cache
    obtain ⟨r1, h1⟩ := evaluateOne_ok c hr ce cache x
    obtain ⟨r2, h2⟩ := ih r1.2
    simp only [evaluateAll, h1, h2]
    exact ⟨_, rfl⟩


theorem indexed_mem : ∀ (pop : Population) (i : Nat) (e : Nat × Chromosome),
    e ∈ indexed i pop → e.2 ∈ pop := by
  intro pop
  induction pop with
  | nil => intro i e h; simp [indexed] at h
  | cons x xs ih =>
    intro i e h
    simp only [indexed, List.mem_cons] at h
    rcases h with rfl | h
    · exact List.mem_cons_self _ _
    · exact List.mem_cons_of_mem _ (ih (i + 1) e h)

theorem indexed_ne_nil (pop : Population) (i : Nat) (h : pop ≠ []) : indexed i pop ≠ [] := by
  cases pop with
  | nil => exact absurd rfl h
  | cons x xs => simp [indexed]

theorem sample_subset {Rng : Type} (c : Collaborators Rng) :
    ∀ (k : Nat) (cands : List (Nat × Chromosome)) (rng : Rng) (e : Nat × Chromosome),
      e ∈ (sample c k cands rng).1 → e ∈ cands := by
  intro k
  induction k with
  | zero => intro cands rng e h; simp [sample] at h
  | succ k ih =>
    intro cands rng e h
    simp only [sample] at h
    cases hl : cands[(c.uniform cands.length rng).1 % cands.length]? with
    | none => simp [hl] at h
    | some a =>
      simp only [hl, List.mem_cons] at h
      rcases h with rfl | h
      · exact List.getElem?_mem hl
      · exact (List.eraseIdx_sublist _ _).subset (ih _ _ e h)

theorem sample_ne_nil {Rng : Type} (c : Collaborators Rng) (k : Nat)
    (cands : List (Nat × Chromosome)) (rng : Rng) (hk : k ≠ 0) (hc : cands ≠ []) :
    (sample c k cands rng).1 ≠ [] := by
  cases k with
  | zero => exact absurd rfl hk
  | succ k =>
    have hpos : 0 < cands.length := List.length_pos.mpr hc
    have hlt : (c.uniform cands.length rng).1 % cands.length < cands.length :=
      Nat.mod_lt _ hpos
    simp only [sample, List.getElem?_eq_getElem hlt]
    simp

theorem select_spec {Rng : Type} (c : Collaborators Rng) (pop : Population)
    (excluded : List Nat) (t : Nat) (rng rng2 : Rng) (w : Nat × Chromosome)
    (h : select c pop excluded t rng = .ok (w, rng2)) : w.2 ∈ pop := by
  unfold select at h
  by_cases hcfg : t = 0 ∨ pop.length < t
  · simp [hcfg] at h
  · simp only [hcfg, if_false] at h
    split at h
    · simp at h
    · rename_i v fv ho
      simp only [Except.ok.injEq, Prod.mk.injEq] at h
      obtain ⟨rfl, _⟩ := h
      have hm := (optimum_spec _ _ v fv ho).1
      have hc := sample_subset c t _ rng v hm
      exact indexed_mem pop 0 v (List.mem_filter.mp hc).1

theorem select_ok {Rng : Type} (c : Collaborators Rng) (pop : Population)
    (excluded : List Nat) (t : Nat) (rng : Rng) (ht : t ≠ 0) (htp : t ≤ pop.length)
    (hc : (indexed 0 pop).filter (fun e => !excluded.contains e.1) ≠ [])
    (hev : ∀ x ∈ pop, ∃ f, x.fitness = some f) :
    ∃ r, select c pop excluded t rng = .ok r := by
  unfold select
  have hcfg : ¬ (t = 0 ∨ pop.length < t) := by omega
  simp only [hcfg, if_false]
  have hne := sample_ne_nil c t _ rng ht hc
  have hall : ∀ e ∈ (sample c t ((indexed 0 pop).filter (fun e => !excluded.contains e.1)) rng).1,
      ∃ f, e.2.fitness = some f := by
    intro e he
    have := sample_subset c t _ rng e he
    exact hev _ (indexed_mem pop 0 e (List.mem_filter.mp this).1)
  obtain ⟨r, hr⟩ := optimum_ok (fun e : Nat × Chromosome => e.2.fitness) _ hne hall
  rw [hr]
  exact ⟨_, rfl⟩

theorem pool_ne_nil (p : Params) (pop : Population) (used : List Nat) (hp : pop ≠ []) :
    (indexed 0 pop).filter (fun e =>
      !(if p.withReplacement then [] else if allDrawn pop used then [] else used).contains e.1)
      ≠ [] := by
  have hfull : (indexed 0 pop).filter (fun e => !([] : List Nat).contains e.1) ≠ [] := by
    have : (indexed 0 pop).filter (fun e => !([] : List Nat).contains e.1) = indexed 0 pop := by
      apply List.filter_eq_self.mpr
      intro a _
      simp
    rw [this]
    exact indexed_ne_nil pop 0 hp
  by_cases hw : p.withReplacement = true
  · rw [if_pos hw]
    exact hfull
  · rw [if_neg hw]
    by_cases hd : allDrawn pop used = true
    · rw [if_pos hd]
      exact hfull
    · rw [if_neg hd]
      have hd2 : ¬ ((indexed 0 pop).all (fun e => used.contains e.1) = true) := hd
      rw [List.all_eq_true] at hd2
      push_neg at hd2
      obtain ⟨e, he, hne⟩ := hd2
      intro hnil
      have hmem : e ∈ (indexed 0 pop).filter (fun e => !used.contains e.1) := by
        apply List.mem_filter.mpr
        refine ⟨he, ?_⟩
        simpa using hne
      rw [hnil] at hmem
      simp at hmem

theorem selectParents_spec {Rng : Type} (c : Collaborators Rng) (p : Params) (pop : Population) :
    ∀ (k : Nat) (used : List Nat) (rng : Rng) (ps : List Chromosome) (rng2 : Rng),
      selectParents c p pop k used rng = .ok (ps, rng2) →
      ps.length = k ∧ ∀ x ∈ ps, x ∈ pop := by
  intro k
  induction k with
  | zero =>
    intro used rng ps rng2 h
    simp only [selectParents, Except.ok.injEq, Prod.mk.injEq] at h
    obtain ⟨rfl, _⟩ := h
    simp
  | succ k ih =>
    intro used rng ps rng2 h
    simp only [selectParents] at h
    generalize hex : (if p.withReplacement = true then ([] : List Nat)
      else if allDrawn pop used = true then [] else used) = excluded at h
    cases hs : select c pop excluded p.tourn_size rng with
    | error e => simp [hs] at h
    | ok r =>
      obtain ⟨w, rng1⟩ := r
      simp only [hs] at h
      cases hrec : selectParents c p pop k (w.1 :: excluded) rng1 with
      | error e => simp [hrec] at h
      | ok r2 =>
        obtain ⟨qs, rng3⟩ := r2
        simp only [hrec, Except.ok.injEq, Prod.mk.injEq] at h
        obtain ⟨rfl, _⟩ := h
        obtain ⟨hlen, hall⟩ := ih _ rng1 qs rng3 hrec
        refine ⟨by simp [hlen], ?_⟩
        intro x hx
        rcases List.mem_cons.mp hx with rfl | hx
        · exact select_spec c pop excluded p.tourn_size rng rng1 w hs
        · exact hall x hx

theorem selectParents_ok {Rng : Type} (c : Collaborators Rng) (p : Params) (pop : Population)
    (ht : p.tourn_size ≠ 0) (htp : p.tourn_size ≤ pop.length) (hp : pop ≠ [])
    (hev : ∀ x ∈ pop, ∃ f, x.fitness = some f) :
    ∀ (k : Nat) (used : List Nat) (rng : Rng), ∃ r, selectParents c p pop k used rng = .ok r := by
  intro k
  induction k with
  | zero => intro used rng; exact ⟨_, rfl⟩
  | succ k ih =>
    intro used rng
    simp only [selectParents]
    obtain ⟨r, hr⟩ := select_ok c pop _ p.tourn_size rng ht htp (pool_ne_nil p pop used hp) hev
    rw [hr]
    obtain ⟨r2, hr2⟩ := ih (r.1.1 :: (if p.withReplacement = true then ([] : List Nat)
      else if allDrawn pop used = true then [] else used)) r.2
    simp only [hr2]
    exact ⟨_, rfl⟩


theorem mutationGate_spec {Rng : Type} (c : Collaborators Rng) (p : Params) (x y : Chromosome)
    (rng rng2 : Rng) (h : mutationGate c p x rng = .ok (y, rng2)) :
    y = x ∨ y.fitness = none := by
  unfold mutationGate at h
  simp only at h
  split at h
  · split at h
    · simp at h
    · split at h
      · simp at h
      · simp only [Except.ok.injEq, Prod.mk.injEq] at h
        exact Or.inr (by rw [← h.1])
  · simp only [Except.ok.injEq, Prod.mk.injEq] at h
    exact Or.inl h.1.symm

theorem crossoverGate_spec {Rng : Type} (c : Collaborators Rng) (p : Params) (pop : Population)
    (x y : Chromosome) (rng rng2 : Rng) (h : crossoverGate c p pop x rng = .ok (y, rng2)) :
    y = x ∨ y.fitness = none := by
  unfold crossoverGate at h
  simp only at h
  split at h
  · split at h
    · simp at h
    · split at h
      · simp at h
      · split at h
        · simp at h
        · simp only [Except.ok.injEq, Prod.mk.injEq] at h
          exact Or.inr (by rw [← h.1])
  · simp only [Except.ok.injEq, Prod.mk.injEq] at h
    exact Or.inl h.1.symm

theorem varyOne_spec {Rng : Type} (c : Collaborators Rng) (p : Params) (pop : Population)
    (x z : Chromosome) (rng rng2 : Rng) (h : varyOne c p pop x rng = .ok (z, rng2)) :
    z = x ∨ z.fitness = none := by
  unfold varyOne at h
  cases hm : mutationGate c p x rng with
  | error e => simp [hm] at h
  | ok r =>
    obtain ⟨y, rng1⟩ := r
    simp only [hm] at h
    rcases crossoverGate_spec c p pop y z rng1 rng2 h with rfl | hz
    · exact mutationGate_spec c p x z rng rng1 hm
    · exact Or.inr hz

theorem varyAll_spec {Rng : Type} (c : Collaborators Rng) (p : Params) (pop : Population) :
    ∀ (xs : List Chromosome) (rng : Rng) (ys : List Chromosome) (rng2 : Rng),
      varyAll c p pop xs rng = .ok (ys, rng2) →
      ys.length = xs.length ∧ ∀ y ∈ ys, y ∈ xs ∨ y.fitness = none := by
  intro xs
  induction xs with
  | nil =>
    intro rng ys rng2 h
    simp only [varyAll, Except.ok.injEq, Prod.mk.injEq] at h
    obtain ⟨rfl, _⟩ := h
    simp
  | cons x xs ih =>
    intro rng ys rng2 h
    simp only [varyAll] at h
    cases h1 : varyOne c p pop x rng with
    | error e => simp [h1] at h
    | ok r =>
      obtain ⟨y, rng1⟩ := r
      simp only [h1] at h
      cases h2 : varyAll c p pop xs rng1 with
      | error e => simp [h2] at h
      | ok r2 =>
        obtain ⟨zs, rng3⟩ := r2
        simp only [h2, Except.ok.injEq, Prod.mk.injEq] at h
        obtain ⟨rfl, _⟩ := h
        obtain ⟨hlen, hall⟩ := ih rng1 zs rng3 h2
        refine ⟨by simp [hlen], ?_⟩
        intro z hz
        rcases List.mem_cons.mp hz with rfl | hz
        · rcases varyOne_spec c p pop x z rng rng1 h1 with rfl | hn
          · exact Or.inl (List.mem_cons_self _ _)
          · exact Or.inr hn
        · rcases hall z hz with hm | hn
          · exact Or.inl (List.mem_cons_of_mem _ hm)
          · exact Or.inr hn

theorem mutationGate_ok {Rng : Type} (c : Collaborators Rng) (hr : c.Reliable) (p : Params)
    (x : Chromosome) (rng : Rng) : ∃ r, mutationGate c p x rng = .ok r := by
  unfold mutationGate
  simp only
  split
  · obtain ⟨r, hm, hne⟩ := hr.2.1 x.nodes (c.uniform 100 rng).2
    obtain ⟨ns, rng1⟩ := r
    simp only [hm]
    simp only at hne
    simp only [hne, if_false]
    exact ⟨_, rfl⟩
  · exact ⟨_, rfl⟩

theorem crossoverGate_ok {Rng : Type} (c : Collaborators Rng) (hr : c.Reliable) (p : Params)
    (pop : Population) (ht : p.tourn_size ≠ 0) (htp : p.tourn_size ≤ pop.length)
    (hp : pop ≠ []) (hev : ∀ x ∈ pop, ∃ f, x.fitness = some f) (x : Chromosome) (rng : Rng) :
    ∃ r, crossoverGate c p pop x rng = .ok r := by
  unfold crossoverGate
  simp only
  split
  · have hpool : (indexed 0 pop).filter (fun e => !([] : List Nat).contains e.1) ≠ [] := by
      have : (indexed 0 pop).filter (fun e => !([] : List Nat).contains e.1) = indexed 0 pop := by
        apply List.filter_eq_self.mpr
        intro a _
        simp
      rw [this]
      exact indexed_ne_nil pop 0 hp
    obtain ⟨s, hs⟩ := select_ok c pop [] p.tourn_size (c.uniform 100 rng).2 ht htp hpool hev
    obtain ⟨mate, rng1⟩ := s
    simp only [hs]
    obtain ⟨r, hm, hne⟩ := hr.2.2 x.nodes mate.2.nodes rng1
    obtain ⟨child, second, rng2⟩ := r
    simp only [hm]
    simp only at hne
    simp only [hne, if_false]
    exact ⟨_, rfl⟩
  · exact ⟨_, rfl⟩

theorem varyAll_ok {Rng : Type} (c : Collaborators Rng) (hr : c.Reliable) (p : Params)
    (pop : Population) (ht : p.tourn_size ≠ 0) (htp : p.tourn_size ≤ pop.length)
    (hp : pop ≠ []) (hev : ∀ x ∈ pop, ∃ f, x.fitness = some f) :
    ∀ (xs : List Chromosome) (rng : Rng), ∃ r, varyAll c p pop xs rng = .ok r := by
  intro xs
  induction xs with
  | nil => intro rng; exact ⟨_, rfl⟩
  | cons x xs ih =>
    intro rng
    obtain ⟨r1, h1⟩ := mutationGate_ok c hr p x rng
    obtain ⟨r2, h2⟩ := crossoverGate_ok c hr p pop ht htp hp hev r1.1 r1.2
    obtain ⟨r3, h3⟩ := ih r2.2
    simp only [varyAll, varyOne, h1, h2, h3]
    exact ⟨_, rfl⟩

theorem updateBest_spec (old : Option (Chromosome × Fitness)) (gb : Chromosome × Fitness) :
    gb.2 ≤ (updateBest old gb).2 ∧ (∀ b, old = some b → b.2 ≤ (updateBest old gb).2) ∧
      (updateBest old gb = gb ∨ old = some (updateBest old gb)) := by
  cases old with
  | none => simp [updateBest]
  | some b =>
    by_cases hlt : b.2 < gb.2
    · simp only [updateBest, hlt, if_true]
      refine ⟨le_refl _, ?_, ?_⟩
      swap
      · simp
      intro b2 hb2
      cases hb2
      exact le_of_lt hlt
    · simp only [updateBest, hlt, if_false]
      refine ⟨not_lt.mp hlt, ?_, ?_⟩
      swap
      · simp
      intro b2 hb2
      cases hb2
      exact le_refl _

theorem evaluatePhase_spec {Rng : Type} (c : Collaborators Rng) (p : Params) (s s1 : State Rng)
    (h : evaluatePhase c p s = .ok s1) :
    ∃ pop cache gb, evaluateAll c p.cacheEnabled s.population s.cache = .ok (pop, cache) ∧
      Population.best pop = .ok gb ∧
      s1 = { s with
             population := pop
             cache := cache
             bestEver := some (updateBest s.bestEver gb)
             history := s.history ++
               [{ index := s.generation, population := pop,
                  bestEver := some (updateBest s.bestEver gb) }] } := by
  unfold evaluatePhase at h
  cases h1 : evaluateAll c p.cacheEnabled s.population s.cache with
  | error e => simp [h1] at h
  | ok r =>
    obtain ⟨pop, cache⟩ := r
    simp only [h1] at h
    cases h2 : Population.best pop with
    | error e => simp [h2] at h
    | ok gb =>
      simp only [h2, Except.ok.injEq] at h
      exact ⟨pop, cache, gb, rfl, h2, h.symm⟩

theorem evaluatePhase_ok {Rng : Type} (c : Collaborators Rng) (hr : c.Reliable) (p : Params)
    (s : State Rng) (hp : s.population ≠ []) : ∃ s1, evaluatePhase c p s = .ok s1 := by
  unfold evaluatePhase
  obtain ⟨r, h1⟩ := evaluateAll_ok c hr p.cacheEnabled s.population s.cache
  obtain ⟨pop, cache⟩ := r
  obtain ⟨hlen, hev⟩ := evaluateAll_spec c p.cacheEnabled _ _ pop cache h1
  have hne : pop ≠ [] := by
    intro hnil
    rw [hnil] at hlen
    exact hp (List.length_eq_zero.mp hlen.symm)
  obtain ⟨gb, h2⟩ := optimum_ok (fun x : Chromosome => x.fitness) pop hne hev
  have h3 : Population.best pop = .ok gb := h2
  simp only [h1, h3]
  exact ⟨_, rfl⟩


theorem step_inv {Rng : Type} (c : Collaborators Rng) (p : Params) (s s1 : State Rng)
    (parents offspring : List Chromosome) (rng1 rng2 : Rng) (hinv : Inv p s)
    (he : evaluatePhase c p s = .ok s1)
    (hs : selectParents c p s1.population p.pop_size [] s1.rng = .ok (parents, rng1))
    (hv : varyAll c p s1.population parents rng1 = .ok (offspring, rng2)) :
    Inv p (replacePhase s1 offspring rng2) ∧
      (replacePhase s1 offspring rng2).generation = s.generation + 1 := by
  obtain ⟨hlen, hhist, hidx, hbest, hhle, hple, _⟩ := hinv
  obtain ⟨pop, cache, gb, hea, hgb, rfl⟩ := evaluatePhase_spec c p s s1 he
  obtain ⟨hpl, hpev⟩ := evaluateAll_spec c p.cacheEnabled _ _ pop cache hea
  obtain ⟨cb, fb⟩ := gb
  obtain ⟨hgm, hgf, hgle⟩ := optimum_spec (fun x : Chromosome => x.fitness) pop cb fb hgb
  obtain ⟨hu1, hu2, hu3⟩ := updateBest_spec s.bestEver (cb, fb)
  obtain ⟨hsl, hsm⟩ := selectParents_spec c p pop _ _ _ parents rng1 hs
  obtain ⟨hvl, hvm⟩ := varyAll_spec c p pop parents rng1 offspring rng2 hv
  have hpopsize : pop.length = p.pop_size := by rw [hpl, hlen]
  have hpop_le : ∀ x ∈ pop, ∀ f, x.fitness = some f → f ≤ (updateBest s.bestEver (cb, fb)).2 :=
    fun x hx f hf => le_trans (hgle x hx f hf) hu1
  refine ⟨⟨?_, ?_, ?_, ?_, ?_, ?_, ?_⟩, rfl⟩
  · simp only [replacePhase]
    rw [hvl, hsl]
  · intro g hg
    simp only [replacePhase, List.mem_append, List.mem_singleton] at hg
    rcases hg with hg | rfl
    · exact hhist g hg
    · exact hpopsize
  · simp only [replacePhase, List.map_append, List.map_cons, List.map_nil, hidx,
      List.range_succ]
  · intro b hb
    simp only [replacePhase, Option.some.injEq] at hb
    subst hb
    constructor
    · rcases hu3 with h | h
      · rw [h]
        exact hgf
      · exact (hbest _ h).1
    · rcases hu3 with h | h
      · refine ⟨_, List.mem_append_right _ (List.mem_singleton_self _), ?_⟩
        rw [h]
        exact hgm
      · obtain ⟨g, hg, hm⟩ := (hbest _ h).2
        exact ⟨g, List.mem_append_left _ hg, hm⟩
  · intro g hg x hx f hf
    refine ⟨_, rfl, ?_⟩
    simp only [replacePhase, List.mem_append, List.mem_singleton] at hg
    rcases hg with hg | rfl
    · obtain ⟨b, hb, hle⟩ := hhle g hg x hx f hf
      exact le_trans hle (hu2 b hb)
    · exact hpop_le x hx f hf
  · intro x hx f hf
    refine ⟨_, rfl, ?_⟩
    simp only [replacePhase] at hx
    rcases hvm x hx with hm | hn
    · exact hpop_le x (hsm x hm) f hf
    · rw [hn] at hf
      cases hf
  · intro _
    simp [replacePhase]

theorem generations_inv {Rng : Type} (c : Collaborators Rng) (p : Params) :
    ∀ (k : Nat) (s s2 : State Rng), Inv p s → generations c p k s = .ok s2 →
      Inv p s2 ∧ s2.generation = s.generation + k := by
  intro k
  induction k with
  | zero =>
    intro s s2 hinv h
    simp only [generations, Except.ok.injEq] at h
    subst h
    exact ⟨hinv, rfl⟩
  | succ k ih =>
    intro s s2 hinv h
    simp only [generations] at h
    cases he : evaluatePhase c p s with
    | error e => simp [he] at h
    | ok s1 =>
      simp only [he] at h
      cases hs : selectParents c p s1.population p.pop_size [] s1.rng with
      | error e => simp [hs] at h
      | ok r =>
        obtain ⟨parents, rng1⟩ := r
        simp only [hs] at h
        cases hv : varyAll c p s1.population parents rng1 with
        | error e => simp [hv] at h
        | ok r2 =>
          obtain ⟨offspring, rng2⟩ := r2
          simp only [hv] at h
          obtain ⟨hinv1, hgen1⟩ := step_inv c p s s1 parents offspring rng1 rng2 hinv he hs hv
          obtain ⟨hinv2, hgen2⟩ := ih _ s2 hinv1 h
          refine ⟨hinv2, ?_⟩
          rw [hgen2, hgen1]
          omega

theorem generations_ok {Rng : Type} (c : Collaborators Rng) (hr : c.Reliable) (p : Params)
    (hps : 1 ≤ p.pop_size) (ht : 1 ≤ p.tourn_size) (htp : p.tourn_size ≤ p.pop_size) :
    ∀ (k : Nat) (s : State Rng), s.population.length = p.pop_size →
      ∃ s2, generations c p k s = .ok s2 := by
  intro k
  induction k with
  | zero => intro s _; exact ⟨_, rfl⟩
  | succ k ih =>
    intro s hlen
    have hne : s.population ≠ [] := by
      intro hnil
      rw [hnil] at hlen
      simp at hlen
      omega
    obtain ⟨s1, he⟩ := evaluatePhase_ok c hr p s hne
    obtain ⟨pop, cache, gb, hea, _, hs1⟩ := evaluatePhase_spec c p s s1 he
    obtain ⟨hpl, hpev⟩ := evaluateAll_spec c p.cacheEnabled _ _ pop cache hea
    have hpop : s1.population = pop := by rw [hs1]
    have hpl1 : s1.population.length = p.pop_size := by rw [hpop, hpl, hlen]
    have hne1 : s1.population ≠ [] := by
      intro hnil
      rw [hnil] at hpl1
      simp at hpl1
      omega
    have hev1 : ∀ x ∈ s1.population, ∃ f, x.fitness = some f := by
      rw [hpop]
      exact hpev
    have ht0 : p.tourn_size ≠ 0 := by omega
    have htl : p.tourn_size ≤ s1.population.length := by rw [hpl1]; exact htp
    obtain ⟨r, hs⟩ := selectParents_ok c p s1.population ht0 htl hne1 hev1 p.pop_size [] s1.rng
    obtain ⟨parents, rng1⟩ := r
    obtain ⟨r2, hv⟩ := varyAll_ok c hr p s1.population ht0 htl hne1 hev1 parents rng1
    obtain ⟨offspring, rng2⟩ := r2
    obtain ⟨hsl, _⟩ := selectParents_spec c p s1.population _ _ _ parents rng1 hs
    obtain ⟨hvl, _⟩ := varyAll_spec c p s1.population parents rng1 offspring rng2 hv
    simp only [generations, he, hs, hv]
    apply ih
    simp only [replacePhase]
    rw [hvl, hsl]

theorem valid_iff (p : Params) :
    p.valid = true ↔ 1 ≤ p.num_gens ∧ 1 ≤ p.pop_size ∧ 1 ≤ p.indiv_size ∧ 1 ≤ p.tourn_size ∧
      p.tourn_size ≤ p.pop_size ∧ p.mut_perc ≤ 100 ∧ p.cross_perc ≤ 100 := by
  simp [Params.valid, and_assoc]

theorem init_inv {Rng : Type} (p : Params) (pop : Population) (rng : Rng)
    (hlen : pop.length = p.pop_size) (hfresh : ∀ x ∈ pop, x.fitness = none) :
    Inv p { generation := 0, population := pop, bestEver := none, cache := [], rng := rng,
            history := [] } := by
  refine ⟨hlen, ?_, rfl, ?_, ?_, ?_, ?_⟩
  · intro g hg; simp at hg
  · intro b hb; simp at hb
  · intro g hg; simp at hg
  · intro x hx f hf
    have := hfresh x hx
    simp only at hx
    rw [hfresh x hx] at hf
    cases hf
  · intro h; simp at h

theorem run_spec {Rng : Type} (c : Collaborators Rng) (p : Params) (rng : Rng) (r : Result)
    (h : run c p rng = .ok r) :
    BestObserved r ∧ SizeKept p.num_gens p.pop_size r := by
  unfold run at h
  by_cases hv : p.valid = false
  · simp [hv] at h
  · rw [if_neg hv] at h
    cases hi : Population.initialize c p.pop_size p.indiv_size p.ot rng with
    | error e => simp [hi] at h
    | ok r0 =>
      obtain ⟨pop, rng1⟩ := r0
      simp only [hi] at h
      have hil : initializeLoop c p.indiv_size p.ot p.pop_size rng = .ok (pop, rng1) := by
        unfold Population.initialize at hi
        by_cases hz : p.pop_size = 0
        · simp [hz] at hi
        · simpa [hz] using hi
      obtain ⟨hlen, hfresh⟩ := initializeLoop_spec c p.indiv_size p.ot _ rng pop rng1 hil
      cases hg : generations c p p.num_gens
          { generation := 0, population := pop, bestEver := none, cache := [], rng := rng1,
            history := [] } with
      | error e => simp [hg] at h
      | ok s =>
        simp only [hg] at h
        obtain ⟨hinv, hgen⟩ := generations_inv c p _ _ s (init_inv p pop rng1 hlen hfresh) hg
        simp only [Nat.zero_add] at hgen
        obtain ⟨hpl, hhist, hidx, hbest, hhle, hple, _⟩ := hinv
        cases hb : s.bestEver with
        | none => simp [hb] at h
        | some b =>
          simp only [hb, Except.ok.injEq] at h
          subst h
          obtain ⟨hbf, g0, hg0, hbm⟩ := hbest b hb
          refine ⟨⟨hbf, ⟨g0, List.mem_append_left _ hg0, hbm⟩, ?_⟩, ?_, ?_⟩
          · intro g hg x hx f hf
            simp only [List.mem_append, List.mem_singleton] at hg
            rcases hg with hg | rfl
            · obtain ⟨b2, hb2, hle⟩ := hhle g hg x hx f hf
              rw [hb] at hb2
              cases hb2
              exact hle
            · obtain ⟨b2, hb2, hle⟩ := hple x hx f hf
              rw [hb] at hb2
              cases hb2
              exact hle
          · simp only [List.map_append, List.map_cons, List.map_nil, hidx, hgen,
              List.range_succ]
          · intro g hg
            simp only [List.mem_append, List.mem_singleton] at hg
            rcases hg with hg | rfl
            · exact hhist g hg
            · exact hpl

theorem run_ok {Rng : Type} (c : Collaborators Rng) (hr : c.Reliable) (p : Params) (rng : Rng)
    (hv : p.valid = true) : ∃ r, run c p rng = .ok r := by
  obtain ⟨hng, hps, his, ht, htp, _, _⟩ := (valid_iff p).mp hv
  unfold run
  have hv2 : ¬ (p.valid = false) := by simp [hv]
  have hz : ¬ (p.pop_size = 0) := by omega
  simp only [hv2, if_false, Population.initialize, hz]
  obtain ⟨r0, hi⟩ := initializeLoop_ok c p.indiv_size p.ot (by omega) p.pop_size rng
  obtain ⟨pop, rng1⟩ := r0
  obtain ⟨hlen, hfresh⟩ := initializeLoop_spec c p.indiv_size p.ot _ rng pop rng1 hi
  simp only [hi]
  obtain ⟨s, hg⟩ := generations_ok c hr p hps ht htp p.num_gens
    { generation := 0, population := pop, bestEver := none, cache := [], rng := rng1,
      history := [] } hlen
  obtain ⟨hinv, hgen⟩ := generations_inv c p _ _ s (init_inv p pop rng1 hlen hfresh) hg
  simp only [hg]
  have hsome : s.bestEver ≠ none := hinv.2.2.2.2.2.2 (by rw [hgen]; simp only at *; omega)
  cases hb : s.bestEver with
  | none => exact absurd hb hsome
  | some b => exact ⟨_, rfl⟩


/-- C6: for a valid parameter set, whenever either entry point returns, the
returned individual is an evaluated member of some generation `0 .. num_gens` and
its fitness is at least the fitness recorded on every individual of every
generation (greater is better); and with collaborators that do not fail both
entry points do return. -/
theorem evolution_returns_best_observed {Rng : Type} (c : Collaborators Rng)
    (num_gens pop_size indiv_size tourn_size mut_perc cross_perc ot : Nat) (rng : Rng)
    (cache : Bool) (h1 : 1 ≤ num_gens) (h2 : 1 ≤ pop_size) (h3 : 1 ≤ indiv_size)
    (h4 : 1 ≤ tourn_size) (h5 : tourn_size ≤ pop_size) (h6 : mut_perc ≤ 100)
    (h7 : cross_perc ≤ 100) :
    (∀ r, evolution_basic_crossover_and_mutation c num_gens pop_size indiv_size tourn_size
        mut_perc cross_perc ot rng = .ok r → BestObserved r) ∧
    (∀ r, evolution_basic_crossover_and_mutation_with_replacement c num_gens pop_size
        indiv_size tourn_size mut_perc cross_perc ot rng cache = .ok r → BestObserved r) ∧
    (c.Reliable →
      (∃ r, evolution_basic_crossover_and_mutation c num_gens pop_size indiv_size tourn_size
        mut_perc cross_perc ot rng = .ok r) ∧
      (∃ r, evolution_basic_crossover_and_mutation_with_replacement c num_gens pop_size
        indiv_size tourn_size mut_perc cross_perc ot rng cache = .ok r)) := by
  refine ⟨fun r h => (run_spec c _ rng r h).1, fun r h => (run_spec c _ rng r h).1, ?_⟩
  intro hr
  constructor
  · exact run_ok c hr _ rng ((valid_iff _).mpr ⟨h1, h2, h3, h4, h5, h6, h7⟩)
  · exact run_ok c hr _ rng ((valid_iff _).mpr ⟨h1, h2, h3, h4, h5, h6, h7⟩)

/-- Witness for C6: two generations of three individuals with the demonstration
collaborators, which do return a result. -/
theorem evolution_returns_best_observed_witness :
    (evolution_basic_crossover_and_mutation demo 2 3 2 2 30 50 0 7).isOk = true ∧
    ((∀ r, evolution_basic_crossover_and_mutation demo 2 3 2 2 30 50 0 7 = .ok r →
        BestObserved r) ∧
     (∀ r, evolution_basic_crossover_and_mutation_with_replacement demo 2 3 2 2 30 50 0 7 true
        = .ok r → BestObserved r) ∧
     (demo.Reliable →
       (∃ r, evolution_basic_crossover_and_mutation demo 2 3 2 2 30 50 0 7 = .ok r) ∧
       (∃ r, evolution_basic_crossover_and_mutation_with_replacement demo 2 3 2 2 30 50 0 7
         true = .ok r))) :=
  ⟨by decide, evolution_returns_best_observed demo 2 3 2 2 30 50 0 7 true (by decide)
    (by decide) (by decide) (by decide) (by decide) (by decide) (by decide)⟩

/-- C7: for a valid parameter set, whenever either entry point returns, its
generation records are those of generations `0 .. num_gens` and each holds
exactly `pop_size` individuals, at the start of every generation and after every
`REPLACE`; and with collaborators that do not fail both entry points do
return. -/
theorem evolution_keeps_pop_size {Rng : Type} (c : Collaborators Rng)
    (num_gens pop_size indiv_size tourn_size mut_perc cross_perc ot : Nat) (rng : Rng)
    (cache : Bool) (h1 : 1 ≤ num_gens) (h2 : 1 ≤ pop_size) (h3 : 1 ≤ indiv_size)
    (h4 : 1 ≤ tourn_size) (h5 : tourn_size ≤ pop_size) (h6 : mut_perc ≤ 100)
    (h7 : cross_perc ≤ 100) :
    (∀ r, evolution_basic_crossover_and_mutation c num_gens pop_size indiv_size tourn_size
        mut_perc cross_perc ot rng = .ok r → SizeKept num_gens pop_size r) ∧
    (∀ r, evolution_basic_crossover_and_mutation_with_replacement c num_gens pop_size
        indiv_size tourn_size mut_perc cross_perc ot rng cache = .ok r →
        SizeKept num_gens pop_size r) ∧
    (c.Reliable →
      (∃ r, evolution_basic_crossover_and_mutation c num_gens pop_size indiv_size tourn_size
        mut_perc cross_perc ot rng = .ok r) ∧
      (∃ r, evolution_basic_crossover_and_mutation_with_replacement c num_gens pop_size
        indiv_size tourn_size mut_perc cross_perc ot rng cache = .ok r)) := by
  refine ⟨fun r h => (run_spec c _ rng r h).2, fun r h => (run_spec c _ rng r h).2, ?_⟩
  intro hr
  constructor
  · exact run_ok c hr _ rng ((valid_iff _).mpr ⟨h1, h2, h3, h4, h5, h6, h7⟩)
  · exact run_ok c hr _ rng ((valid_iff _).mpr ⟨h1, h2, h3, h4, h5, h6, h7⟩)

/-- Witness for C7: the specification's scenario shape on a small run, three
generations of four individuals with the demonstration collaborators. -/
theorem evolution_keeps_pop_size_witness :
    (evolution_basic_crossover_and_mutation_with_replacement demo 3 4 2 2 0 0 0 5 false).isOk
      = true ∧
    ((∀ r, evolution_basic_crossover_and_mutation demo 3 4 2 2 0 0 0 5 = .ok r →
        SizeKept 3 4 r) ∧
     (∀ r, evolution_basic_crossover_and_mutation_with_replacement demo 3 4 2 2 0 0 0 5 false
        = .ok r → SizeKept 3 4 r) ∧
     (demo.Reliable →
       (∃ r, evolution_basic_crossover_and_mutation demo 3 4 2 2 0 0 0 5 = .ok r) ∧
       (∃ r, evolution_basic_crossover_and_mutation_with_replacement demo 3 4 2 2 0 0 0 5
         false = .ok r))) :=
  ⟨by decide, evolution_keeps_pop_size demo 3 4 2 2 0 0 0 5 false (by decide) (by decide)
    (by decide) (by decide) (by decide) (by decide) (by decide)⟩

end Evolution
